import Mathlib

/-
Verification of the `near-bp-sim` proof-of-stake incentive simulator.

Modeling conventions, used uniformly below:
* `f64` values are modeled by the type `F`: an exact rational (`F.num q`) or one of
  the IEEE-754 special values `F.inf`, `F.ninf`, `F.nan`.  Arithmetic on finite
  values is exact rational arithmetic (rounding error is not modeled, and neither
  is the signed zero); the propagation rules for `inf`/`ninf`/`nan` follow
  IEEE-754, which is what Rust `f64` implements.  Comparisons (`<`, `==`) follow
  IEEE-754 semantics: `nan` is not equal to, less than, or greater than anything.
* A Rust `HashMap<Id, Participant>` registry is modeled as a `List Participant`
  in iteration order; key lookup is lookup of the first element with that `id`
  (keys are unique in a `HashMap`, so theorems that need uniqueness take a
  `Nodup` hypothesis on the ids).  Auxiliary `HashMap`s are association lists.
* A Rust panic (`unwrap`/`expect` failure, division/remainder by zero on
  integers, `debug_assert!` failure) aborts the run; a function that can panic
  is modeled with an `Option` result, `none` meaning the abort.  Side effects
  performed before the abort are discarded, since an aborted run has no
  observable final state.
* Random draws (`rng.gen()`, `gen_range`, coin flips) are passed in as explicit
  arguments: one `(ℚ × Bool)` draw pair per participant for the role auction,
  and the individual draws of `manage_participants` as separate arguments.
-/

namespace BpSim

/-- Model of an `f64` value: an exact rational or an IEEE-754 special value. -/
inductive F where
  | num (q : ℚ)
  | inf
  | ninf
  | nan
deriving DecidableEq, Repr

namespace F

/-- Whether the value is the IEEE `NaN`. -/
def isNan : F → Bool
  | nan => true
  | _ => false

/-- Whether the value is finite (an ordinary number). -/
def isFinite : F → Bool
  | num _ => true
  | _ => false

/-- IEEE negation. -/
def neg : F → F
  | num q => num (-q)
  | inf => ninf
  | ninf => inf
  | nan => nan

/-- IEEE addition (exact on finite values). -/
def add : F → F → F
  | nan, _ => nan
  | _, nan => nan
  | num a, num b => num (a + b)
  | inf, ninf => nan
  | ninf, inf => nan
  | inf, _ => inf
  | ninf, _ => ninf
  | num _, inf => inf
  | num _, ninf => ninf

/-- IEEE subtraction, as addition of the negation. -/
def sub (a b : F) : F := add a (neg b)

/-- IEEE multiplication (exact on finite values; `0 * inf = nan`). -/
def mul : F → F → F
  | nan, _ => nan
  | _, nan => nan
  | num a, num b => num (a * b)
  | num a, inf => if 0 < a then inf else if a < 0 then ninf else nan
  | num a, ninf => if 0 < a then ninf else if a < 0 then inf else nan
  | inf, num b => if 0 < b then inf else if b < 0 then ninf else nan
  | ninf, num b => if 0 < b then ninf else if b < 0 then inf else nan
  | inf, inf => inf
  | inf, ninf => ninf
  | ninf, inf => ninf
  | ninf, ninf => inf

/-- IEEE division (exact on finite values).  Division of a finite value by zero
yields `inf`/`ninf`/`nan` according to the sign of the numerator; signed zero is
not modeled so a zero denominator is treated as `+0`. -/
def div : F → F → F
  | nan, _ => nan
  | _, nan => nan
  | num a, num b =>
    if b = 0 then (if 0 < a then inf else if a < 0 then ninf else nan)
    else num (a / b)
  | num _, inf => num 0
  | num _, ninf => num 0
  | inf, num _ => inf
  | ninf, num _ => ninf
  | inf, inf => nan
  | inf, ninf => nan
  | ninf, inf => nan
  | ninf, ninf => nan

/-- IEEE strict less-than: any comparison with `nan` is `false`. -/
def lt : F → F → Bool
  | nan, _ => false
  | _, nan => false
  | num a, num b => a < b
  | num _, inf => true
  | num _, ninf => false
  | inf, _ => false
  | ninf, ninf => false
  | ninf, _ => true

/-- IEEE equality test: `nan` is not equal to anything, including itself. -/
def ieeeEq : F → F → Bool
  | num a, num b => a = b
  | inf, inf => true
  | ninf, ninf => true
  | _, _ => false

/-- Model of Rust `PartialOrd::partial_cmp` on `f64`: `none` iff an operand is `nan`. -/
def fcmp : F → F → Option Ordering
  | nan, _ => none
  | _, nan => none
  | num a, num b => some (compare a b)
  | num _, inf => some .lt
  | num _, ninf => some .gt
  | inf, num _ => some .gt
  | ninf, num _ => some .lt
  | inf, inf => some .eq
  | ninf, ninf => some .eq
  | inf, ninf => some .gt
  | ninf, inf => some .lt

end F

instance : Add F := ⟨F.add⟩

instance : Sub F := ⟨F.sub⟩

instance : Mul F := ⟨F.mul⟩

instance : Div F := ⟨F.div⟩

instance : Neg F := ⟨F.neg⟩

/-- Participant identifier (`id.rs`: `struct Id(usize)`). -/
abbrev Id := Nat

/-- Identifier allocator (`id.rs`: `IdGenerator`). -/
structure IdGenerator where
  state : Nat
deriving DecidableEq, Repr

/-- Allocate the next identifier (`IdGenerator::next`). -/
def IdGenerator.next (g : IdGenerator) : Id × IdGenerator :=
  (g.state, ⟨g.state + 1⟩)

/-- Role of a participant (`role.rs`). -/
inductive Role where
  | blockProducer
  | chunkOnlyProducer
  | delegator (id : Id)
deriving DecidableEq, Repr

/-- Participant state (`sim.rs`: `struct Participant`). -/
structure Participant where
  id : Id
  num_tokens : F
  role : Option Role
  most_recent_stake_change : F
  expected_stake_change_on_switch : F
deriving DecidableEq, Repr

/-- Event payload (`event.rs`: `enum Info`). -/
inductive Info where
  | participantCreated (participant_id : Id) (num_tokens : F)
  | stakeChange (participant_id : Id) (change_amount : F)
  | roleChange (participant_id : Id) (new_role : Option Role)
  | participantsMerged (participant_ids : Id × Id) (new_participant_id : Id)
  | participantSplit (participant_id : Id) (new_participant_ids : Id × Id)
  | participantBankrupt (participant_id : Id)
deriving DecidableEq, Repr

/-- Timestamped event (`event.rs`: `struct Event`). -/
structure Event where
  time : Nat
  info : Info
deriving DecidableEq, Repr

/-- Simulation parameters (`sim.rs`: `struct Params`). -/
structure Params where
  num_block_producers : Nat
  num_chunk_only_producers : Nat
  chunk_only_producer_cost : F
  block_producer_cost_factor : F
  total_reward : F
  block_producer_reward_fraction : F
  block_producer_delegation_fee : F
  chunk_only_producer_delegation_fee : F
deriving DecidableEq, Repr

/-- Association-list lookup (model of `HashMap::get`). -/
def lookup_assoc {α : Type} : List (Id × α) → Id → Option α
  | [], _ => none
  | kv :: rest, k => if kv.1 = k then some kv.2 else lookup_assoc rest k

/-- Association-list insert/replace (model of `HashMap::insert`). -/
def insert_assoc {α : Type} : List (Id × α) → Id → α → List (Id × α)
  | [], k, v => [(k, v)]
  | kv :: rest, k, v => if kv.1 = k then (k, v) :: rest else kv :: insert_assoc rest k v

/-- Association-list removal (model of `HashMap::remove`, dropping the returned value). -/
def remove_assoc {α : Type} : List (Id × α) → Id → List (Id × α)
  | [], _ => []
  | kv :: rest, k => if kv.1 = k then rest else kv :: remove_assoc rest k

/-- Model of `effective_stakes.entry(k).or_insert(0f64); *stake += v`. -/
def upsert_add : List (Id × F) → Id → F → List (Id × F)
  | [], k, v => [(k, F.num 0 + v)]
  | kv :: rest, k, v => if kv.1 = k then (kv.1, kv.2 + v) :: rest else kv :: upsert_add rest k v

/-- Registry lookup by id (model of `participants.get(&id)` on the registry map). -/
def lookup_participant (ps : List Participant) (i : Id) : Option Participant :=
  ps.find? (fun p => p.id == i)

/-- Split a participant into two successors with half of every balance
(`sim.rs`: `Participant::split`). -/
def Participant.split (p : Participant) (g : IdGenerator) :
    Participant × Participant × IdGenerator :=
  let (new_id_1, g1) := g.next
  let (new_id_2, g2) := g1.next
  let template : Participant :=
    { id := new_id_1
      num_tokens := p.num_tokens / F.num 2
      role := p.role
      most_recent_stake_change := p.most_recent_stake_change / F.num 2
      expected_stake_change_on_switch := p.expected_stake_change_on_switch / F.num 2 }
  (template, { template with id := new_id_2 }, g2)

/-- Pre-pass snapshot computed at the top of `update_token_amounts`
(`sim.rs` lines 134-175): effective stakes, resolved delegation targets and
the two role totals. -/
structure Snapshot where
  effective_stakes : List (Id × F)
  delegated_roles : List (Id × Option Role)
  total_bp_stake : F
  total_cop_stake : F
deriving DecidableEq, Repr

/-- One iteration of the snapshot loop of `update_token_amounts` (`sim.rs`
lines 140-168).  `none` models the `participants.get(&delegatee_id).unwrap()`
panic when a delegation target is missing from the registry. -/
def snapshot_step (all : List Participant) (s : Snapshot) (p : Participant) : Option Snapshot :=
  let es := upsert_add s.effective_stakes p.id p.num_tokens
  match p.role with
  | none => some { s with effective_stakes := es }
  | some Role.blockProducer =>
    some { s with effective_stakes := es, total_bp_stake := s.total_bp_stake + p.num_tokens }
  | some Role.chunkOnlyProducer =>
    some { s with effective_stakes := es, total_cop_stake := s.total_cop_stake + p.num_tokens }
  | some (Role.delegator delegatee_id) =>
    match lookup_participant all delegatee_id with
    | none => none
    | some delegatee =>
      match delegatee.role with
      | some Role.blockProducer =>
        some { s with
          effective_stakes := upsert_add es delegatee_id p.num_tokens
          total_bp_stake := s.total_bp_stake + p.num_tokens
          delegated_roles := insert_assoc s.delegated_roles p.id (some Role.blockProducer) }
      | some Role.chunkOnlyProducer =>
        some { s with
          effective_stakes := upsert_add es delegatee_id p.num_tokens
          total_cop_stake := s.total_cop_stake + p.num_tokens
          delegated_roles := insert_assoc s.delegated_roles p.id (some Role.chunkOnlyProducer) }
      | _ => some { s with effective_stakes := es }

/-- Fold of `snapshot_step` over the registry in iteration order. -/
def build_snapshot_aux (all : List Participant) : List Participant → Snapshot → Option Snapshot
  | [], s => some s
  | p :: rest, s =>
    match snapshot_step all s p with
    | none => none
    | some s' => build_snapshot_aux all rest s'

/-- The snapshot taken at the start of `update_token_amounts`. -/
def build_snapshot (ps : List Participant) : Option Snapshot :=
  build_snapshot_aux ps ps ⟨[], [], F.num 0, F.num 0⟩

/-- Token-change computation for one participant — the role `match` of the
settlement loop (`sim.rs` lines 183-280).  Returns the updated participant and
the `change` value.  `none` models the two `unwrap()` panics: a missing
`effective_stakes` entry, and the `delegated_roles.get(&p.id).unwrap()` on line
241 (which has no entry when the delegation target has no active role). -/
def settle_change (snap : Snapshot) (params : Params) (p : Participant) :
    Option (Participant × F) :=
  let bp_cost := params.chunk_only_producer_cost * params.block_producer_cost_factor
  let cop_reward_fraction := F.num 1 - params.block_producer_reward_fraction
  let bp_delegator_cost := F.num 1 - params.block_producer_delegation_fee
  let cop_delegator_cost := F.num 1 - params.chunk_only_producer_delegation_fee
  match p.role with
  | none => some (p, F.num 0)
  | some Role.blockProducer =>
    match lookup_assoc snap.effective_stakes p.id with
    | none => none
    | some effective_stake =>
      let delegated_stake := effective_stake - p.num_tokens
      let bp_profit :=
        params.total_reward * params.block_producer_reward_fraction * effective_stake
            / snap.total_bp_stake
          - params.total_reward * params.block_producer_reward_fraction * bp_delegator_cost
              * delegated_stake / snap.total_bp_stake
          - bp_cost
      let cop_profit :=
        params.total_reward * cop_reward_fraction * effective_stake
            / (effective_stake + snap.total_cop_stake)
          - params.total_reward * cop_reward_fraction * cop_delegator_cost * delegated_stake
              / (effective_stake + snap.total_cop_stake)
          - params.chunk_only_producer_cost
      some ({ p with
               num_tokens := p.num_tokens + bp_profit
               most_recent_stake_change := bp_profit
               expected_stake_change_on_switch := cop_profit }, bp_profit)
  | some Role.chunkOnlyProducer =>
    match lookup_assoc snap.effective_stakes p.id with
    | none => none
    | some effective_stake =>
      let delegated_stake := effective_stake - p.num_tokens
      let cop_profit :=
        params.total_reward * cop_reward_fraction * effective_stake / snap.total_cop_stake
          - params.total_reward * cop_reward_fraction * cop_delegator_cost * delegated_stake
              / snap.total_cop_stake
          - params.chunk_only_producer_cost
      let bp_profit :=
        params.total_reward * params.block_producer_reward_fraction * effective_stake
            / (effective_stake + snap.total_bp_stake)
          - params.total_reward * params.block_producer_reward_fraction * bp_delegator_cost
              * delegated_stake / (effective_stake + snap.total_bp_stake)
          - bp_cost
      some ({ p with
               num_tokens := p.num_tokens + cop_profit
               most_recent_stake_change := cop_profit
               expected_stake_change_on_switch := bp_profit }, cop_profit)
  | some (Role.delegator _) =>
    match lookup_assoc snap.delegated_roles p.id with
    | none => none
    | some delegated_role =>
      match delegated_role with
      | some Role.blockProducer =>
        let bp_reward := params.total_reward * params.block_producer_reward_fraction
            * p.num_tokens / snap.total_bp_stake
        let bp_fee := bp_reward * params.block_producer_delegation_fee
        let bp_stake_change := bp_reward - bp_fee
        let cop_reward := params.total_reward * cop_reward_fraction * p.num_tokens
            / (p.num_tokens + snap.total_cop_stake)
        let cop_fee := cop_reward * params.chunk_only_producer_delegation_fee
        let cop_stake_change := cop_reward - cop_fee
        some ({ p with
                 num_tokens := p.num_tokens + bp_stake_change
                 most_recent_stake_change := bp_stake_change
                 expected_stake_change_on_switch := cop_stake_change }, bp_stake_change)
      | some Role.chunkOnlyProducer =>
        let cop_reward := params.total_reward * cop_reward_fraction * p.num_tokens
            / snap.total_cop_stake
        let cop_fee := cop_reward * params.chunk_only_producer_delegation_fee
        let cop_stake_change := cop_reward - cop_fee
        let bp_reward := params.total_reward * params.block_producer_reward_fraction
            * p.num_tokens / (p.num_tokens + snap.total_bp_stake)
        let bp_fee := bp_reward * params.block_producer_delegation_fee
        let bp_stake_change := bp_reward - bp_fee
        some ({ p with
                 num_tokens := p.num_tokens + cop_stake_change
                 most_recent_stake_change := cop_stake_change
                 expected_stake_change_on_switch := bp_stake_change }, cop_stake_change)
      | _ => some (p, F.num 0)

/-- One full iteration of the settlement loop: change computation followed by
the event/bankruptcy decision (`sim.rs` lines 282-300).  Returns the updated
participant, the events pushed for it, and whether it was marked bankrupt. -/
def settle_one (snap : Snapshot) (params : Params) (time : Nat) (p : Participant) :
    Option (Participant × List Event × Bool) :=
  match settle_change snap params p with
  | none => none
  | some (p', change) =>
    if F.ieeeEq change (F.num 0) then some (p', [], false)
    else if F.lt (F.num 0) change || (F.lt change (F.num 0) && F.lt (F.num 0) p'.num_tokens) then
      some (p', [⟨time, Info.stakeChange p'.id change⟩], false)
    else
      some (p', [⟨time, Info.participantBankrupt p'.id⟩], true)

/-- Option-valued map over a list, failing if any element fails. -/
def mapO {α β : Type} (f : α → Option β) : List α → Option (List β)
  | [] => some []
  | a :: l =>
    match f a, mapO f l with
    | some b, some bs => some (b :: bs)
    | _, _ => none

/-- The settlement pass (`sim.rs`: `update_token_amounts`): build the snapshot,
settle every participant against it, then remove the participants marked
bankrupt (removal deferred to after the loop, as in the source). -/
def update_token_amounts (ps : List Participant) (params : Params) (time : Nat) :
    Option (List Participant × List Event) :=
  match build_snapshot ps with
  | none => none
  | some snap =>
    match mapO (settle_one snap params time) ps with
    | none => none
    | some outs =>
      let bankrupt_participants := (outs.filter (fun o => o.2.2)).map (fun o => o.1.id)
      let new_ps := (outs.map (fun o => o.1)).filter
        (fun p => !(bankrupt_participants.contains p.id))
      some (new_ps, (outs.map (fun o => o.2.1)).flatten)

/-- Remove the first participant with the given id, returning it and the rest
(model of `participants.remove(&id)` returning the removed value). -/
def remove_by_id : List Participant → Id → Option (Participant × List Participant)
  | [], _ => none
  | p :: rest, i =>
    if p.id = i then some (p, rest)
    else
      match remove_by_id rest i with
      | none => none
      | some (q, rest') => some (q, p :: rest')

/-- The merged successor participant built in the merge branch of
`manage_participants` (`sim.rs` lines 374-381). -/
def merge_participants (p1 p2 : Participant) (new_id : Id) : Participant :=
  { id := new_id
    num_tokens := p1.num_tokens + p2.num_tokens
    role := p1.role
    most_recent_stake_change := p1.most_recent_stake_change + p2.most_recent_stake_change
    expected_stake_change_on_switch :=
      p1.expected_stake_change_on_switch + p2.expected_stake_change_on_switch }

/-- Population dynamics (`sim.rs`: `manage_participants`).  The random draws
are explicit: `x0` is `rng.gen::<f64>()` (forced to `0` on an empty registry),
`idx` is the `gen_range(0..participants.len())` draw, and `modifier0` is the
`rng.gen::<f64>()` factor of the entry branch.  New map entries are appended at
the end of the list. -/
def manage_participants (ps : List Participant) (time : Nat) (gen : IdGenerator)
    (x0 : ℚ) (idx : Nat) (modifier0 : ℚ) :
    Option (List Participant × List Event × IdGenerator) :=
  let x : ℚ := if ps.isEmpty then 0 else x0
  if x < 333/1000 then
    let (new_id, gen') := gen.next
    match (if ps.isEmpty then some (F.num 100) else
           match ps[idx]? with
           | none => none
           | some q => some q.num_tokens) with
    | none => none
    | some base_stake =>
      let modifier : ℚ := 2 * modifier0
      let p : Participant :=
        { id := new_id
          num_tokens := F.num modifier * base_stake
          role := none
          most_recent_stake_change := F.num 0
          expected_stake_change_on_switch := F.num 0 }
      some (ps ++ [p], [⟨time, Info.participantCreated new_id p.num_tokens⟩], gen')
  else if x < 667/1000 then
    match ps[idx]? with
    | none => none
    | some q =>
      match remove_by_id ps q.id with
      | none => none
      | some (original_particpiant, rest) =>
        let (p1, p2, gen') := original_particpiant.split gen
        some (rest ++ [p1, p2], [⟨time, Info.participantSplit q.id (p1.id, p2.id)⟩], gen')
  else
    match ps[idx]? with
    | none => none
    | some q =>
      match remove_by_id ps q.id with
      | none => none
      | some (p1, rest) =>
        match rest.find? (fun p => p.role == p1.role) with
        | some p2sel =>
          match remove_by_id rest p2sel.id with
          | none => none
          | some (p2, rest2) =>
            let (new_id, gen') := gen.next
            let p := merge_participants p1 p2 new_id
            some (rest2 ++ [p], [⟨time, Info.participantsMerged (p1.id, p2.id) new_id⟩], gen')
        | none => some (rest, [], gen)

/-- Switch probability of the role auction (`sim.rs` lines 406-411): 1% when
the actual change beat the counterfactual, 5% otherwise. -/
def switch_probability (p : Participant) : ℚ :=
  if F.lt p.expected_stake_change_on_switch p.most_recent_stake_change then 1/100 else 5/100

/-- Which pool a participant's proposal joins (`sim.rs` lines 412-459), given
its `x` draw and (in the branches that flip a coin) its coin draw.
`true` means the block-producer pool. -/
def joins_bp_pool (all : List Participant) (p : Participant) (x : ℚ) (coin : Bool) : Bool :=
  match p.role with
  | none => coin
  | some Role.blockProducer => if x < switch_probability p then false else true
  | some Role.chunkOnlyProducer => if x < switch_probability p then true else false
  | some (Role.delegator i) =>
    match (lookup_participant all i).bind (fun d => d.role) with
    | some Role.blockProducer => if x < switch_probability p then false else true
    | some Role.chunkOnlyProducer => if x < switch_probability p then true else false
    | _ => coin

/-- The proposal-building loop of `update_roles`, pushing `(num_tokens, id)`
proposals into the two pools in registry iteration order.  `k` indexes the
entropy stream. -/
def build_proposals_aux (all : List Participant) (ent : Nat → ℚ × Bool) :
    List Participant → Nat → List (F × Id) × List (F × Id)
  | [], _ => ([], [])
  | p :: rest, k =>
    let x := (ent k).1
    let coin := (ent k).2
    let bps := (build_proposals_aux all ent rest (k + 1)).1
    let cops := (build_proposals_aux all ent rest (k + 1)).2
    if joins_bp_pool all p x coin then ((p.num_tokens, p.id) :: bps, cops)
    else (bps, (p.num_tokens, p.id) :: cops)

/-- The two candidate pools produced by the proposal loop of `update_roles`. -/
def build_proposals (ps : List Participant) (ent : Nat → ℚ × Bool) :
    List (F × Id) × List (F × Id) :=
  build_proposals_aux ps ent ps 0

/-- The proposal comparator of `update_roles` (`sim.rs` lines 462-463):
lexicographic `partial_cmp` on the `(stake, id)` pair, reversed.  `none` models
the `unwrap()` panic on an incomparable (`nan`) stake. -/
def prop_cmp (a b : F × Id) : Option Ordering :=
  match F.fcmp a.1 b.1 with
  | none => none
  | some Ordering.eq => some (compare a.2 b.2).swap
  | some o => some o.swap

/-- Boolean `≤` test induced by `prop_cmp`, totalized (the `nan` case never
occurs in a sorted pool because `sort_proposals` rejects `nan` stakes). -/
def prop_le (a b : F × Id) : Bool :=
  match prop_cmp a b with
  | some Ordering.gt => false
  | _ => true

/-- Insertion into a sorted list. -/
def insert_sorted {α : Type} (le : α → α → Bool) (a : α) : List α → List α
  | [] => [a]
  | b :: l => if le a b then a :: b :: l else b :: insert_sorted le a l

/-- Insertion sort.  For the strict total comparator used on the pools (no two
entries share both stake and id when ids are distinct) the sorted permutation
is unique, so this models `sort_unstable_by` exactly. -/
def sortBy {α : Type} (le : α → α → Bool) : List α → List α
  | [] => []
  | a :: l => insert_sorted le a (sortBy le l)

/-- Sorting one candidate pool.  `none` models the comparator's `unwrap()`
panic, which fires as soon as a `nan` stake is compared (possible only when the
pool has at least two entries). -/
def sort_proposals (l : List (F × Id)) : Option (List (F × Id)) :=
  if 2 ≤ l.length ∧ l.any (fun pr => pr.1.isNan) then none
  else some (sortBy prop_le l)

/-- Update the role of the participant with the given id (the `assign_role`
closure of `update_roles`, lines 465-476).  Returns the updated registry and
whether the role actually changed (which is when a `RoleChange` event is
pushed).  `none` models the `participants.get_mut(id).unwrap()` panic. -/
def set_role : List Participant → Id → Option Role → Option (List Participant × Bool)
  | [], _, _ => none
  | p :: rest, i, new_role =>
    if p.id = i then
      if p.role ≠ new_role then some ({ p with role := new_role } :: rest, true)
      else some (p :: rest, false)
    else
      match set_role rest i new_role with
      | none => none
      | some (rest', changed) => some (p :: rest', changed)

/-- Apply a sequence of `(id, new_role)` assignments in order, collecting the
`RoleChange` events of the assignments that changed a role. -/
def apply_assignments (time : Nat) :
    List Participant → List (Id × Option Role) → Option (List Participant × List Event)
  | ps, [] => some (ps, [])
  | ps, a :: rest =>
    match set_role ps a.1 a.2 with
    | none => none
    | some (ps', changed) =>
      match apply_assignments time ps' rest with
      | none => none
      | some (ps'', evs) =>
        some (ps'', (if changed then [⟨time, Info.roleChange a.1 a.2⟩] else []) ++ evs)

/-- The round-robin delegation loop over one pool's overflow entries (`sim.rs`
lines 490-503).  `pool` is the full sorted pool, `slots` the slot count, the
list argument the overflow (`skip(slots)`), and `i` the cycling index.  `none`
models the `(i + 1) % slots` panic when `slots = 0` (the source panics right
after the first overflow assignment; the abort discards the partial state). -/
def round_robin (pool : List (F × Id)) (slots : Nat) :
    List (F × Id) → Nat → Option (List (Id × Option Role))
  | [], _ => some []
  | pr :: rest, i =>
    match pool[i]? with
    | none => none
    | some delegating =>
      if slots = 0 then none
      else
        match round_robin pool slots rest ((i + 1) % slots) with
        | none => none
        | some tl => some ((pr.2, some (Role.delegator delegating.2)) :: tl)

/-- The role auction (`sim.rs`: `update_roles`): build the two pools, sort
them, give the top `num_block_producers` / `num_chunk_only_producers` entries
the producer roles, and delegate every overflow entry round-robin to that
pool's winners.  `ent` supplies each participant's random draws. -/
def update_roles (ps : List Participant) (params : Params) (time : Nat)
    (ent : Nat → ℚ × Bool) : Option (List Participant × List Event) :=
  let pools := build_proposals ps ent
  match sort_proposals pools.1, sort_proposals pools.2 with
  | some bp_proposals, some cop_proposals =>
    let bp_winners := (bp_proposals.take params.num_block_producers).map
      (fun pr => (pr.2, some Role.blockProducer))
    let cop_winners := (cop_proposals.take params.num_chunk_only_producers).map
      (fun pr => (pr.2, some Role.chunkOnlyProducer))
    match round_robin bp_proposals params.num_block_producers
            (bp_proposals.drop params.num_block_producers) 0,
          round_robin cop_proposals params.num_chunk_only_producers
            (cop_proposals.drop params.num_chunk_only_producers) 0 with
    | some bp_over, some cop_over =>
      apply_assignments time ps (bp_winners ++ cop_winners ++ bp_over ++ cop_over)
    | _, _ => none
  | _, _ => none

/-- Per-tick aggregate row (`event.rs`: `struct Stats`). -/
structure Stats where
  time : Nat
  total_bp_stake : F
  total_cop_stake : F
  total_delegated_bp_stake : F
  total_delegated_cop_stake : F
deriving DecidableEq, Repr

/-- The statistics-aggregating event consumer (`event.rs`: `StatsAccumulator`). -/
structure StatsAccumulator where
  history : List Stats
  current : Stats
  stakes : List (Id × F)
  roles : List (Id × Role)
deriving DecidableEq, Repr

/-- Recompute the four running totals of the current row from the shadow
stake/role maps (`event.rs`: `StatsAccumulator::compute_totals`). -/
def compute_totals (s : StatsAccumulator) : StatsAccumulator :=
  let cur0 := { s.current with
    total_bp_stake := F.num 0
    total_cop_stake := F.num 0
    total_delegated_bp_stake := F.num 0
    total_delegated_cop_stake := F.num 0 }
  let cur := s.stakes.foldl (fun cur kv =>
    match lookup_assoc s.roles kv.1 with
    | none => cur
    | some Role.blockProducer => { cur with total_bp_stake := cur.total_bp_stake + kv.2 }
    | some Role.chunkOnlyProducer => { cur with total_cop_stake := cur.total_cop_stake + kv.2 }
    | some (Role.delegator delegatee_id) =>
      match lookup_assoc s.roles delegatee_id with
      | some Role.blockProducer =>
        { cur with
          total_bp_stake := cur.total_bp_stake + kv.2
          total_delegated_bp_stake := cur.total_delegated_bp_stake + kv.2 }
      | some Role.chunkOnlyProducer =>
        { cur with
          total_cop_stake := cur.total_cop_stake + kv.2
          total_delegated_cop_stake := cur.total_delegated_cop_stake + kv.2 }
      | _ => cur) cur0
  { s with current := cur }

/-- Tick-boundary prologue of `StatsAccumulator::push` (`event.rs` lines
148-152): when the event's time differs from the current row's, finalize the
totals, append the row to the history and restamp the current row. -/
def tick_boundary (s0 : StatsAccumulator) (t : Nat) : StatsAccumulator :=
  if t ≠ s0.current.time then
    let s1 := compute_totals s0
    { s1 with
      history := s1.history ++ [s1.current]
      current := { s1.current with time := t } }
  else s0

/-- Event handler of the stats aggregator (`event.rs`:
`impl EventConsumer for StatsAccumulator`, `push`).  `none` models the
`expect("Participant must be created before stake is changed")` panic and the
`debug_assert!(role0 == role1)` failure of the merge case (the model follows
the checked build, in which `debug_assert!` aborts). -/
def StatsAccumulator.push (s0 : StatsAccumulator) (e : Event) : Option StatsAccumulator :=
  let s := tick_boundary s0 e.time
  match e.info with
  | Info.participantCreated participant_id nt =>
    some { s with stakes := insert_assoc s.stakes participant_id nt }
  | Info.stakeChange participant_id change_amount =>
    match lookup_assoc s.stakes participant_id with
    | none => none
    | some v =>
      some { s with stakes := insert_assoc s.stakes participant_id (v + change_amount) }
  | Info.roleChange participant_id new_role =>
    match new_role with
    | none => some { s with roles := remove_assoc s.roles participant_id }
    | some r => some { s with roles := insert_assoc s.roles participant_id r }
  | Info.participantsMerged participant_ids new_participant_id =>
    let v0 := (lookup_assoc s.stakes participant_ids.1).getD (F.num 0)
    let stakes1 := remove_assoc s.stakes participant_ids.1
    let v1 := (lookup_assoc stakes1 participant_ids.2).getD (F.num 0)
    let stakes2 := remove_assoc stakes1 participant_ids.2
    let stakes3 := insert_assoc stakes2 new_participant_id (v0 + v1)
    let role0 := lookup_assoc s.roles participant_ids.1
    let roles1 := remove_assoc s.roles participant_ids.1
    let role1 := lookup_assoc roles1 participant_ids.2
    let roles2 := remove_assoc roles1 participant_ids.2
    if role0 = role1 then
      some { s with
        stakes := stakes3
        roles := match role0 with
                 | some r => insert_assoc roles2 new_participant_id r
                 | none => roles2 }
    else none
  | Info.participantSplit participant_id new_participant_ids =>
    let role0 := lookup_assoc s.roles participant_id
    let rolesR := remove_assoc s.roles participant_id
    let roles' := match role0 with
      | some r =>
        insert_assoc (insert_assoc rolesR new_participant_ids.1 r) new_participant_ids.2 r
      | none => rolesR
    let stake0 := lookup_assoc s.stakes participant_id
    let stakesR := remove_assoc s.stakes participant_id
    let stakes' := match stake0 with
      | some v =>
        insert_assoc (insert_assoc stakesR new_participant_ids.1 (v / F.num 2))
          new_participant_ids.2 (v / F.num 2)
      | none => stakesR
    some { s with stakes := stakes', roles := roles' }
  | Info.participantBankrupt participant_id =>
    some { s with roles := remove_assoc s.roles participant_id }

/-- The parameter set of the repository's own settlement test
(`sim.rs`, `test_update_token_amounts`). -/
def params_a : Params :=
  { num_block_producers := 1
    num_chunk_only_producers := 1
    chunk_only_producer_cost := F.num 5
    block_producer_cost_factor := F.num 7
    total_reward := F.num 3000
    block_producer_reward_fraction := F.num (6/10)
    block_producer_delegation_fee := F.num (15/100)
    chunk_only_producer_delegation_fee := F.num (5/100) }

/-- A block producer holding zero tokens: the total block-producer stake of a
registry containing only this participant is zero. -/
def zero_bp : Participant :=
  { id := 0
    num_tokens := F.num 0
    role := some Role.blockProducer
    most_recent_stake_change := F.num 0
    expected_stake_change_on_switch := F.num 0 }

/-- A role-less participant, used as an inert delegation target. -/
def bystander : Participant :=
  { id := 0
    num_tokens := F.num 100
    role := none
    most_recent_stake_change := F.num 0
    expected_stake_change_on_switch := F.num 0 }

/-- A delegator whose target is the role-less `bystander`. -/
def inert_delegator : Participant :=
  { id := 1
    num_tokens := F.num 50
    role := some (Role.delegator 0)
    most_recent_stake_change := F.num 0
    expected_stake_change_on_switch := F.num 0 }

/-- Parameters under which a solo block producer's reward exactly equals its
operating cost, making its settlement delta exactly zero. -/
def params_break_even : Params :=
  { num_block_producers := 1
    num_chunk_only_producers := 1
    chunk_only_producer_cost := F.num 5
    block_producer_cost_factor := F.num 1
    total_reward := F.num 10
    block_producer_reward_fraction := F.num (1/2)
    block_producer_delegation_fee := F.num (15/100)
    chunk_only_producer_delegation_fee := F.num (5/100) }

/-- A block producer whose settlement delta under `params_break_even` is `0`. -/
def bp_break_even : Participant :=
  { id := 0
    num_tokens := F.num 10
    role := some Role.blockProducer
    most_recent_stake_change := F.num 0
    expected_stake_change_on_switch := F.num 0 }

/-- A stats-aggregator state whose shadow maps hold two participants with
different roles, about to be merged. -/
def stats_mixed_roles : StatsAccumulator :=
  { history := []
    current := ⟨0, F.num 0, F.num 0, F.num 0, F.num 0⟩
    stakes := [(0, F.num 5), (1, F.num 7)]
    roles := [(0, Role.blockProducer), (1, Role.chunkOnlyProducer)] }

/-- A stats-aggregator state with one stake entry, used as a witness input. -/
def stats_single : StatsAccumulator :=
  { history := []
    current := ⟨0, F.num 0, F.num 0, F.num 0, F.num 0⟩
    stakes := [(0, F.num 5)]
    roles := [] }

/-- First successor of splitting `bystander` with the allocator at state 5. -/
def split_child_a : Participant :=
  { id := 5
    num_tokens := F.num 50
    role := none
    most_recent_stake_change := F.num 0
    expected_stake_change_on_switch := F.num 0 }

/-- Second successor of splitting `bystander` with the allocator at state 5. -/
def split_child_b : Participant :=
  { split_child_a with id := 6 }

/-- The participant id an event is about (the discriminating id used by the
repository's own test helper `event_to_id` in `sim.rs`). -/
def event_pid (e : Event) : Id :=
  match e.info with
  | Info.participantCreated participant_id _ => participant_id
  | Info.stakeChange participant_id _ => participant_id
  | Info.roleChange participant_id _ => participant_id
  | Info.participantsMerged _ new_participant_id => new_participant_id
  | Info.participantSplit participant_id _ => participant_id
  | Info.participantBankrupt participant_id => participant_id

/-- Block producer with 5 tokens and id 0 — ties `tie_b` on stake exactly. -/
def tie_a : Participant :=
  { id := 0
    num_tokens := F.num 5
    role := some Role.blockProducer
    most_recent_stake_change := F.num 0
    expected_stake_change_on_switch := F.num 0 }

/-- Block producer with 5 tokens and id 1 — ties `tie_a` on stake exactly. -/
def tie_b : Participant :=
  { tie_a with id := 1 }

/-- Parameters with a single block-producer slot. -/
def params_one_slot : Params :=
  { params_a with num_block_producers := 1, num_chunk_only_producers := 1 }

/-- Parameters with zero block-producer slots. -/
def params_zero_bp_slots : Params :=
  { params_a with num_block_producers := 0 }

/-- Constant entropy stream for auction witnesses: every participant draws
`x = 1/2` (no switch) and coin `true`. -/
def coin_ent : Nat → ℚ × Bool := fun _ => (1/2, true)

/-- The descending pool order actually implemented by the auction's sort:
stake strictly larger first, and exact stake ties ordered by id descending. -/
def pool_ord (a b : F × Id) : Prop :=
  F.lt b.1 a.1 = true ∨ (F.ieeeEq a.1 b.1 = true ∧ b.2 ≤ a.2)

/-- The block producer of `bp_break_even` after one settlement pass under
`params_a`: reward 1800 minus cost 35 gained, counterfactual 1195. -/
def settled_bp : Participant :=
  { id := 0
    num_tokens := F.num 1775
    role := some Role.blockProducer
    most_recent_stake_change := F.num 1765
    expected_stake_change_on_switch := F.num 1195 }

/-- Specification device for the auction proofs: the participant after a list
of `(id, role)` assignments is applied to it in order (last write wins). -/
def roles_after (asgn : List (Id × Option Role)) (q : Participant) : Participant :=
  asgn.foldl (fun q a => if q.id = a.1 then { q with role := a.2 } else q) q

end BpSim

namespace BpSim

theorem F.num_add_num (a b : ℚ) : F.num a + F.num b = F.num (a + b) := rfl

theorem F.num_mul_num (a b : ℚ) : F.num a * F.num b = F.num (a * b) := rfl

theorem F.num_sub_num (a b : ℚ) : F.num a - F.num b = F.num (a - b) := by
  show F.sub (F.num a) (F.num b) = F.num (a - b)
  simp [F.sub, F.neg, F.add, sub_eq_add_neg]

theorem F.num_div_num (a b : ℚ) (h : b ≠ 0) : F.num a / F.num b = F.num (a / b) := by
  show F.div (F.num a) (F.num b) = F.num (a / b)
  simp [F.div, h]

/-- Claim C1 (code_bug evidence): on a registry whose only block producer holds
zero tokens, the total block-producer stake is zero and the settlement formula
divides `0 / 0`: the reward-share terms evaluate to `nan`, the participant's
token amount becomes `nan` (non-finite), and the full pass then treats the
participant as bankrupt — the code has no rule that turns a zero role total
into a zero reward. -/
theorem c1_zero_total_stake_yields_nan :
    build_snapshot [zero_bp] = some ⟨[(0, F.num 0)], [], F.num 0, F.num 0⟩
    ∧ settle_change ⟨[(0, F.num 0)], [], F.num 0, F.num 0⟩ params_a zero_bp =
        some ({ zero_bp with
                 num_tokens := F.nan
                 most_recent_stake_change := F.nan
                 expected_stake_change_on_switch := F.nan }, F.nan)
    ∧ update_token_amounts [zero_bp] params_a 1 =
        some ([], [⟨1, Info.participantBankrupt 0⟩]) := by
  with_unfolding_all decide

/-- Claim C2 (code_bug evidence): a delegator whose target has no active role
contributes no stake to either role total in the snapshot (first conjunct),
but the settlement pass then aborts with the `delegated_roles` `unwrap` panic
instead of completing with a zero delta (second conjunct) — the
`None | Some(Role::Delegator(_)) => 0f64` arm on line 278 is unreachable. -/
theorem c2_inert_delegator_panics :
    build_snapshot [bystander, inert_delegator] =
      some ⟨[(0, F.num 100), (1, F.num 50)], [], F.num 0, F.num 0⟩
    ∧ update_token_amounts [bystander, inert_delegator] params_a 1 = none := by
  with_unfolding_all decide

/-- Claim C3 (counterexample): a block producer whose settlement delta is
exactly `0` keeps positive tokens, yet the pass emits no `StakeChange` event at
all — the code only emits events when `change != 0`, refuting the claim that
every delta with `delta ≥ 0` produces a `StakeChange`. -/
theorem c3_zero_delta_counterexample :
    build_snapshot [bp_break_even] = some ⟨[(0, F.num 10)], [], F.num 10, F.num 0⟩
    ∧ settle_change ⟨[(0, F.num 10)], [], F.num 10, F.num 0⟩ params_break_even bp_break_even =
        some (bp_break_even, F.num 0)
    ∧ update_token_amounts [bp_break_even] params_break_even 1 =
        some ([bp_break_even], []) := by
  with_unfolding_all decide

theorem lookup_insert_assoc_self {α : Type} (l : List (Id × α)) (k : Id) (v : α) :
    lookup_assoc (insert_assoc l k v) k = some v := by
  induction l with
  | nil => simp [insert_assoc, lookup_assoc]
  | cons kv rest ih =>
    by_cases h : kv.1 = k
    · simp [insert_assoc, lookup_assoc, h]
    · simp [insert_assoc, lookup_assoc, h, ih]

theorem lookup_insert_assoc_ne {α : Type} (l : List (Id × α)) (k k' : Id) (v : α)
    (h : k ≠ k') : lookup_assoc (insert_assoc l k v) k' = lookup_assoc l k' := by
  have h' : ¬ (k' = k) := fun e => h e.symm
  induction l with
  | nil => simp [insert_assoc, lookup_assoc, h]
  | cons kv rest ih =>
    by_cases hk : kv.1 = k
    · simp [insert_assoc, lookup_assoc, hk, h, h']
    · by_cases hk' : kv.1 = k'
      · simp [insert_assoc, lookup_assoc, hk, hk', h']
      · simp [insert_assoc, lookup_assoc, hk, hk', ih]

theorem lookup_remove_assoc_ne {α : Type} (l : List (Id × α)) (k k' : Id)
    (h : k ≠ k') : lookup_assoc (remove_assoc l k) k' = lookup_assoc l k' := by
  have h' : ¬ (k' = k) := fun e => h e.symm
  induction l with
  | nil => simp [remove_assoc]
  | cons kv rest ih =>
    by_cases hk : kv.1 = k
    · simp [remove_assoc, lookup_assoc, hk, h, h']
    · by_cases hk' : kv.1 = k'
      · simp [remove_assoc, lookup_assoc, hk, hk', h']
      · simp [remove_assoc, lookup_assoc, hk, hk', ih]

theorem lookup_remove_assoc_none {α : Type} (l : List (Id × α)) (k k' : Id)
    (h : lookup_assoc l k' = none) : lookup_assoc (remove_assoc l k) k' = none := by
  induction l with
  | nil => simp [remove_assoc, lookup_assoc]
  | cons kv rest ih =>
    by_cases hk' : kv.1 = k'
    · simp [lookup_assoc, hk'] at h
    · by_cases hk : kv.1 = k
      · simp [lookup_assoc, hk'] at h
        simp [remove_assoc, hk, h]
      · simp [lookup_assoc, hk'] at h
        simp [remove_assoc, lookup_assoc, hk, hk', ih h]

/-- The tick-boundary prologue of `StatsAccumulator::push` never touches the
shadow stake and role maps. -/
theorem tick_boundary_preserves_maps (s0 : StatsAccumulator) (t : Nat) :
    (tick_boundary s0 t).stakes = s0.stakes ∧ (tick_boundary s0 t).roles = s0.roles := by
  by_cases h : t ≠ s0.current.time <;> simp [tick_boundary, h, compute_totals]

/-- Claim C9: processing a `StakeChange` event adds the delta to an existing
stake entry of the shadow map, and aborts (fails fatally) when the entry is
missing. -/
theorem c9_stake_change_add_or_abort (s : StatsAccumulator) (t : Nat) (i : Id) (d : F) :
    (∀ v, lookup_assoc s.stakes i = some v →
      ∃ s', StatsAccumulator.push s ⟨t, Info.stakeChange i d⟩ = some s' ∧
        lookup_assoc s'.stakes i = some (v + d))
    ∧ (lookup_assoc s.stakes i = none →
        StatsAccumulator.push s ⟨t, Info.stakeChange i d⟩ = none) := by
  have hst := (tick_boundary_preserves_maps s t).1
  constructor
  · intro v hv
    have hpush : StatsAccumulator.push s ⟨t, Info.stakeChange i d⟩ =
        some { tick_boundary s t with
               stakes := insert_assoc (tick_boundary s t).stakes i (v + d) } := by
      simp [StatsAccumulator.push, hst, hv]
    exact ⟨_, hpush, lookup_insert_assoc_self _ _ _⟩
  · intro hv
    simp [StatsAccumulator.push, hst, hv]

/-- Claim C9 witness: a concrete aggregator state with a stake entry for id 0
and none for id 1. -/
theorem c9_stake_change_add_or_abort_witness :
    (∃ s', StatsAccumulator.push stats_single ⟨0, Info.stakeChange 0 (F.num 3)⟩ = some s' ∧
      lookup_assoc s'.stakes 0 = some (F.num 5 + F.num 3))
    ∧ StatsAccumulator.push stats_single ⟨0, Info.stakeChange 1 (F.num 3)⟩ = none := by
  constructor
  · exact (c9_stake_change_add_or_abort stats_single 0 0 (F.num 3)).1 (F.num 5)
      (by with_unfolding_all decide)
  · exact (c9_stake_change_add_or_abort stats_single 0 1 (F.num 3)).2
      (by with_unfolding_all decide)

/-- Claim C8 (counterexample): merging two participants whose shadow roles
differ does not continue with "no role carried over" — the aggregator's
`debug_assert!(role0 == role1)` fails and the run aborts. -/
theorem c8_merge_differing_roles_counterexample :
    StatsAccumulator.push stats_mixed_roles ⟨0, Info.participantsMerged (0, 1) 2⟩ = none := by
  with_unfolding_all decide

/-- Claim C8 (amended): on a `ParticipantsMerged` event the new id's stake
becomes the sum of the two source stakes (a missing source counting as zero);
when the two merged participants share the same shadow-role entry the new id
carries exactly that shared entry, and when the entries differ the aggregator
fails its asserted invariant and aborts instead of carrying no role. -/
theorem c8_merge_amended (s : StatsAccumulator) (t : Nat) (i0 i1 inew : Id)
    (hne : i0 ≠ i1) (hfresh : lookup_assoc s.roles inew = none) :
    (lookup_assoc s.roles i0 = lookup_assoc s.roles i1 →
      ∃ s', StatsAccumulator.push s ⟨t, Info.participantsMerged (i0, i1) inew⟩ = some s' ∧
        lookup_assoc s'.stakes inew =
          some ((lookup_assoc s.stakes i0).getD (F.num 0) +
                (lookup_assoc s.stakes i1).getD (F.num 0)) ∧
        lookup_assoc s'.roles inew = lookup_assoc s.roles i0)
    ∧ (lookup_assoc s.roles i0 ≠ lookup_assoc s.roles i1 →
        StatsAccumulator.push s ⟨t, Info.participantsMerged (i0, i1) inew⟩ = none) := by
  have hst := (tick_boundary_preserves_maps s t).1
  have hrl := (tick_boundary_preserves_maps s t).2
  have hstake1 : lookup_assoc (remove_assoc s.stakes i0) i1 = lookup_assoc s.stakes i1 :=
    lookup_remove_assoc_ne _ _ _ hne
  have hrole1 : lookup_assoc (remove_assoc s.roles i0) i1 = lookup_assoc s.roles i1 :=
    lookup_remove_assoc_ne _ _ _ hne
  constructor
  · intro hroles
    cases hcase : lookup_assoc s.roles i0 with
    | none =>
      have hpush : StatsAccumulator.push s ⟨t, Info.participantsMerged (i0, i1) inew⟩ =
          some { tick_boundary s t with
                 stakes := insert_assoc (remove_assoc (remove_assoc s.stakes i0) i1) inew
                   ((lookup_assoc s.stakes i0).getD (F.num 0) +
                    (lookup_assoc s.stakes i1).getD (F.num 0))
                 roles := remove_assoc (remove_assoc s.roles i0) i1 } := by
        simp [StatsAccumulator.push, hst, hrl, hstake1, hrole1, hroles, hcase, hroles.symm.trans hcase]
      refine ⟨_, hpush, lookup_insert_assoc_self _ _ _, ?_⟩
      show lookup_assoc (remove_assoc (remove_assoc s.roles i0) i1) inew = none
      exact lookup_remove_assoc_none _ _ _ (lookup_remove_assoc_none _ _ _ hfresh)
    | some r =>
      have hpush : StatsAccumulator.push s ⟨t, Info.participantsMerged (i0, i1) inew⟩ =
          some { tick_boundary s t with
                 stakes := insert_assoc (remove_assoc (remove_assoc s.stakes i0) i1) inew
                   ((lookup_assoc s.stakes i0).getD (F.num 0) +
                    (lookup_assoc s.stakes i1).getD (F.num 0))
                 roles := insert_assoc (remove_assoc (remove_assoc s.roles i0) i1) inew r } := by
        simp [StatsAccumulator.push, hst, hrl, hstake1, hrole1, hroles, hcase, hroles.symm.trans hcase]
      refine ⟨_, hpush, lookup_insert_assoc_self _ _ _, ?_⟩
      show lookup_assoc (insert_assoc (remove_assoc (remove_assoc s.roles i0) i1) inew r)
        inew = some r
      exact lookup_insert_assoc_self _ _ _
  · intro hroles
    simp [StatsAccumulator.push, hst, hrl, hstake1, hrole1, hroles]

/-- Claim C8 witness: two participants sharing the block-producer role merge
into id 5; the stake sums and the shared role is carried over. -/
theorem c8_merge_amended_witness :
    ∃ s', StatsAccumulator.push
        ⟨[], ⟨0, F.num 0, F.num 0, F.num 0, F.num 0⟩,
         [(0, F.num 5), (1, F.num 7)],
         [(0, Role.blockProducer), (1, Role.blockProducer)]⟩
        ⟨0, Info.participantsMerged (0, 1) 5⟩ = some s' ∧
      lookup_assoc s'.stakes 5 = some (F.num 5 + F.num 7) ∧
      lookup_assoc s'.roles 5 = some Role.blockProducer := by
  have h := (c8_merge_amended
      ⟨[], ⟨0, F.num 0, F.num 0, F.num 0, F.num 0⟩,
       [(0, F.num 5), (1, F.num 7)],
       [(0, Role.blockProducer), (1, Role.blockProducer)]⟩ 0 0 1 5
      (by decide) (by with_unfolding_all decide)).1 (by with_unfolding_all decide)
  obtain ⟨s', hpush, hstake, hrole⟩ := h
  refine ⟨s', hpush, ?_, ?_⟩
  · simpa using hstake
  · simpa using hrole

/-- Claim C5: a `Split` halves `tokens`, `last_change` and
`counterfactual_change` exactly, so each of the three sums over the two
successors equals the original value within `1e-6`; a `Merge` sums the two
participants' values exactly, so the successor's value equals the sum within
`1e-6`. -/
theorem c5_split_merge_conservation
    (p q1 q2 : Participant) (g g' : IdGenerator)
    (tq lq cq : ℚ)
    (ht : p.num_tokens = F.num tq)
    (hl : p.most_recent_stake_change = F.num lq)
    (hc : p.expected_stake_change_on_switch = F.num cq)
    (hsplit : p.split g = (q1, q2, g'))
    (pa pb : Participant) (nid : Id) (ta tb la lb ca cb : ℚ)
    (hta : pa.num_tokens = F.num ta) (htb : pb.num_tokens = F.num tb)
    (hla : pa.most_recent_stake_change = F.num la)
    (hlb : pb.most_recent_stake_change = F.num lb)
    (hca : pa.expected_stake_change_on_switch = F.num ca)
    (hcb : pb.expected_stake_change_on_switch = F.num cb) :
    (∃ a1 a2 l1 l2 c1 c2,
      q1.num_tokens = F.num a1 ∧ q2.num_tokens = F.num a2 ∧
      q1.most_recent_stake_change = F.num l1 ∧ q2.most_recent_stake_change = F.num l2 ∧
      q1.expected_stake_change_on_switch = F.num c1 ∧
      q2.expected_stake_change_on_switch = F.num c2 ∧
      |a1 + a2 - tq| < 1/1000000 ∧ |l1 + l2 - lq| < 1/1000000 ∧ |c1 + c2 - cq| < 1/1000000)
    ∧ (∃ sm lm cm,
      (merge_participants pa pb nid).num_tokens = F.num sm ∧
      (merge_participants pa pb nid).most_recent_stake_change = F.num lm ∧
      (merge_participants pa pb nid).expected_stake_change_on_switch = F.num cm ∧
      |sm - (ta + tb)| < 1/1000000 ∧ |lm - (la + lb)| < 1/1000000 ∧
      |cm - (ca + cb)| < 1/1000000) := by
  have hq1 : q1 = (p.split g).1 := by rw [hsplit]
  have hq2 : q2 = (p.split g).2.1 := by rw [hsplit]
  have htwo : (2 : ℚ) ≠ 0 := by norm_num
  constructor
  · refine ⟨tq / 2, tq / 2, lq / 2, lq / 2, cq / 2, cq / 2, ?_, ?_, ?_, ?_, ?_, ?_, ?_, ?_, ?_⟩
    · rw [hq1]; simp [Participant.split, ht, F.num_div_num _ _ htwo]
    · rw [hq2]; simp [Participant.split, ht, F.num_div_num _ _ htwo]
    · rw [hq1]; simp [Participant.split, hl, F.num_div_num _ _ htwo]
    · rw [hq2]; simp [Participant.split, hl, F.num_div_num _ _ htwo]
    · rw [hq1]; simp [Participant.split, hc, F.num_div_num _ _ htwo]
    · rw [hq2]; simp [Participant.split, hc, F.num_div_num _ _ htwo]
    · have : tq / 2 + tq / 2 - tq = 0 := by ring
      rw [this]; norm_num
    · have : lq / 2 + lq / 2 - lq = 0 := by ring
      rw [this]; norm_num
    · have : cq / 2 + cq / 2 - cq = 0 := by ring
      rw [this]; norm_num
  · refine ⟨ta + tb, la + lb, ca + cb, ?_, ?_, ?_, ?_, ?_, ?_⟩
    · simp [merge_participants, hta, htb, F.num_add_num]
    · simp [merge_participants, hla, hlb, F.num_add_num]
    · simp [merge_participants, hca, hcb, F.num_add_num]
    all_goals simp

/-- Claim C5 witness: splitting `bystander` (100 tokens) yields two 50-token
successors, and merging `bystander` with `inert_delegator` yields a 150-token
successor; all three balances are conserved. -/
theorem c5_split_merge_conservation_witness :
    (∃ a1 a2 l1 l2 c1 c2,
      split_child_a.num_tokens = F.num a1 ∧ split_child_b.num_tokens = F.num a2 ∧
      split_child_a.most_recent_stake_change = F.num l1 ∧
      split_child_b.most_recent_stake_change = F.num l2 ∧
      split_child_a.expected_stake_change_on_switch = F.num c1 ∧
      split_child_b.expected_stake_change_on_switch = F.num c2 ∧
      |a1 + a2 - 100| < 1/1000000 ∧ |l1 + l2 - 0| < 1/1000000 ∧ |c1 + c2 - 0| < 1/1000000)
    ∧ (∃ sm lm cm,
      (merge_participants bystander inert_delegator 7).num_tokens = F.num sm ∧
      (merge_participants bystander inert_delegator 7).most_recent_stake_change = F.num lm ∧
      (merge_participants bystander inert_delegator 7).expected_stake_change_on_switch =
        F.num cm ∧
      |sm - (100 + 50)| < 1/1000000 ∧ |lm - (0 + 0)| < 1/1000000 ∧
      |cm - (0 + 0)| < 1/1000000) :=
  c5_split_merge_conservation bystander split_child_a split_child_b ⟨5⟩ ⟨7⟩ 100 0 0
    rfl rfl rfl (by with_unfolding_all decide)
    bystander inert_delegator 7 100 50 0 0 0 0 rfl rfl rfl rfl rfl rfl

/-- With distinct ids, removing a participant found at position `idx` removes
exactly that occurrence, and no remaining participant shares its id. -/
theorem remove_by_id_nodup (ps : List Participant) (idx : Nat) (q : Participant)
    (hnd : (ps.map Participant.id).Nodup) (hq : ps[idx]? = some q) :
    remove_by_id ps q.id = some (q, ps.eraseIdx idx)
    ∧ ∀ r ∈ ps.eraseIdx idx, r.id ≠ q.id := by
  induction ps generalizing idx with
  | nil => simp at hq
  | cons p rest ih =>
    simp only [List.map_cons, List.nodup_cons] at hnd
    cases idx with
    | zero =>
      simp only [List.getElem?_cons_zero, Option.some.injEq] at hq
      subst hq
      refine ⟨by simp [remove_by_id], ?_⟩
      intro r hr
      simp only [List.eraseIdx_cons_zero] at hr
      intro hid
      exact hnd.1 (hid ▸ List.mem_map_of_mem Participant.id hr)
    | succ n =>
      simp only [List.getElem?_cons_succ] at hq
      have hqmem : q ∈ rest := by
        have := List.getElem?_eq_some.mp hq
        obtain ⟨hlt, he⟩ := this
        exact he ▸ List.getElem_mem _
      have hpq : p.id ≠ q.id := by
        intro h
        exact hnd.1 (h ▸ List.mem_map_of_mem Participant.id hqmem)
      have hres := ih n hnd.2 hq
      refine ⟨?_, ?_⟩
      · simp only [remove_by_id, if_neg hpq, hres.1]
        simp [List.eraseIdx_cons_succ]
      · intro r hr
        simp only [List.eraseIdx_cons_succ, List.mem_cons] at hr
        rcases hr with rfl | hr
        · exact hpq
        · exact hres.2 r hr

/-- Claim C7: in the merge branch of `manage_participants`, when no remaining
participant's role is identical to the removed candidate's role, the candidate
is removed and not reinserted, no event is emitted, no identifier is
allocated, and the registry is otherwise unchanged. -/
theorem c7_merge_no_match (ps : List Participant) (time : Nat) (g : IdGenerator)
    (x0 mod0 : ℚ) (idx : Nat) (q : Participant)
    (hnd : (ps.map Participant.id).Nodup)
    (hq : ps[idx]? = some q)
    (hx : 667/1000 ≤ x0)
    (hnomatch : ∀ r ∈ ps, r.id ≠ q.id → r.role ≠ q.role) :
    manage_participants ps time g x0 idx mod0 = some (ps.eraseIdx idx, [], g) := by
  have hne : ps ≠ [] := by
    intro h
    rw [h] at hq
    simp at hq
  have hempty : ps.isEmpty = false := by
    simpa [List.isEmpty_iff] using hne
  have h1 : ¬ (x0 < 333/1000) := by
    intro h
    have : (333 : ℚ)/1000 < 667/1000 := by norm_num
    linarith
  have h2 : ¬ (x0 < 667/1000) := not_lt.mpr hx
  have hrm := remove_by_id_nodup ps idx q hnd hq
  have hfind : (ps.eraseIdx idx).find? (fun p => p.role == q.role) = none := by
    rw [List.find?_eq_none]
    intro r hr
    have hid := hrm.2 r hr
    have hmem : r ∈ ps := List.eraseIdx_subset _ _ hr
    have := hnomatch r hmem hid
    simpa using this
  simp [manage_participants, hempty, h1, h2, hq, hrm.1, hfind]

/-- Claim C7 witness: with the merge branch selected (`x0 = 7/10`) and a
registry of two participants with different roles, the candidate at index 0 is
dropped with no events and an unchanged allocator. -/
theorem c7_merge_no_match_witness :
    manage_participants [bystander, inert_delegator] 1 ⟨5⟩ (7/10) 0 0 =
      some ([inert_delegator], [], (⟨5⟩ : IdGenerator)) := by
  have h := c7_merge_no_match [bystander, inert_delegator] 1 ⟨5⟩ (7/10) 0 0 bystander
    (by decide) (by decide) (by norm_num) (by decide)
  simpa using h

theorem mapO_forall2 {α β : Type} (f : α → Option β) (l : List α) (outs : List β)
    (h : mapO f l = some outs) : List.Forall₂ (fun a b => f a = some b) l outs := by
  induction l generalizing outs with
  | nil =>
    simp only [mapO, Option.some.injEq] at h
    subst h
    exact List.Forall₂.nil
  | cons a rest ih =>
    simp only [mapO] at h
    cases hfa : f a with
    | none => rw [hfa] at h; simp at h
    | some b =>
      rw [hfa] at h
      cases hrest : mapO f rest with
      | none => rw [hrest] at h; simp at h
      | some bs =>
        rw [hrest] at h
        simp only [Option.some.injEq] at h
        subst h
        exact List.Forall₂.cons hfa (ih bs hrest)

theorem forall2_mem_left {α β : Type} {R : α → β → Prop} {l : List α} {l' : List β}
    (h : List.Forall₂ R l l') {a : α} (ha : a ∈ l) : ∃ b ∈ l', R a b := by
  induction h with
  | nil => simp at ha
  | cons hab hrest ih =>
    rcases List.mem_cons.mp ha with rfl | ha'
    · exact ⟨_, List.mem_cons_self _ _, hab⟩
    · obtain ⟨b, hb, hrb⟩ := ih ha'
      exact ⟨b, List.mem_cons_of_mem _ hb, hrb⟩

theorem forall2_mem_right {α β : Type} {R : α → β → Prop} {l : List α} {l' : List β}
    (h : List.Forall₂ R l l') {b : β} (hb : b ∈ l') : ∃ a ∈ l, R a b := by
  induction h with
  | nil => simp at hb
  | cons hab hrest ih =>
    rcases List.mem_cons.mp hb with rfl | hb'
    · exact ⟨_, List.mem_cons_self _ _, hab⟩
    · obtain ⟨a, ha, hra⟩ := ih hb'
      exact ⟨a, List.mem_cons_of_mem _ ha, hra⟩

/-- The settlement change computation never alters a participant's id. -/
theorem settle_change_id (snap : Snapshot) (prm : Params) (p p' : Participant) (c : F)
    (h : settle_change snap prm p = some (p', c)) : p'.id = p.id := by
  unfold settle_change at h
  cases hrole : p.role with
  | none =>
    simp only [hrole, Option.some.injEq, Prod.mk.injEq] at h
    rw [← h.1]
  | some r =>
    cases r with
    | blockProducer =>
      simp only [hrole] at h
      cases hl : lookup_assoc snap.effective_stakes p.id with
      | none =>
        simp only [hl] at h
        exact Option.noConfusion h
      | some es =>
        simp only [hl, Option.some.injEq, Prod.mk.injEq] at h
        rw [← h.1]
    | chunkOnlyProducer =>
      simp only [hrole] at h
      cases hl : lookup_assoc snap.effective_stakes p.id with
      | none =>
        simp only [hl] at h
        exact Option.noConfusion h
      | some es =>
        simp only [hl, Option.some.injEq, Prod.mk.injEq] at h
        rw [← h.1]
    | delegator d =>
      simp only [hrole] at h
      cases hl : lookup_assoc snap.delegated_roles p.id with
      | none =>
        simp only [hl] at h
        exact Option.noConfusion h
      | some dr =>
        simp only [hl] at h
        cases dr with
        | none =>
          simp only [Option.some.injEq, Prod.mk.injEq] at h
          rw [← h.1]
        | some r2 =>
          cases r2 with
          | blockProducer =>
            simp only [Option.some.injEq, Prod.mk.injEq] at h
            rw [← h.1]
          | chunkOnlyProducer =>
            simp only [Option.some.injEq, Prod.mk.injEq] at h
            rw [← h.1]
          | delegator d2 =>
            simp only [Option.some.injEq, Prod.mk.injEq] at h
            rw [← h.1]

/-- One settlement iteration keeps the participant's id and only emits events
about that id. -/
theorem settle_one_spec (snap : Snapshot) (prm : Params) (t : Nat) (p : Participant)
    (out : Participant × List Event × Bool) (h : settle_one snap prm t p = some out) :
    out.1.id = p.id ∧ ∀ e ∈ out.2.1, event_pid e = p.id := by
  unfold settle_one at h
  cases hsc : settle_change snap prm p with
  | none => rw [hsc] at h; simp at h
  | some pc =>
    obtain ⟨p', c⟩ := pc
    have hid := settle_change_id snap prm p p' c hsc
    simp only [hsc] at h
    by_cases h0 : F.ieeeEq c (F.num 0) = true
    · rw [if_pos h0] at h
      cases h
      exact ⟨hid, by simp⟩
    · rw [if_neg h0] at h
      by_cases h1 : (F.lt (F.num 0) c || (F.lt c (F.num 0) && F.lt (F.num 0) p'.num_tokens)) = true
      · rw [if_pos h1] at h
        cases h
        refine ⟨hid, ?_⟩
        intro e he
        simp only [List.mem_singleton] at he
        subst he
        simp [event_pid, hid]
      · rw [if_neg h1] at h
        cases h
        refine ⟨hid, ?_⟩
        intro e he
        simp only [List.mem_singleton] at he
        subst he
        simp [event_pid, hid]

/-- Ids of the settlement outputs coincide with ids of the inputs, in order. -/
theorem settle_outs_ids (snap : Snapshot) (prm : Params) (t : Nat) (ps : List Participant)
    (outs : List (Participant × List Event × Bool))
    (h : mapO (settle_one snap prm t) ps = some outs) :
    outs.map (fun o => o.1.id) = ps.map Participant.id := by
  have h2 := mapO_forall2 _ _ _ h
  clear h
  induction h2 with
  | nil => rfl
  | cons hab hrest ih =>
    simp only [List.map_cons, ih]
    rw [(settle_one_spec _ _ _ _ _ hab).1]

/-- A failed change computation aborts the settlement iteration. -/
theorem settle_one_eq_none (snap : Snapshot) (prm : Params) (t : Nat) (p : Participant)
    (h : settle_change snap prm p = none) : settle_one snap prm t p = none := by
  unfold settle_one
  rw [h]

/-- Once the change computation is fixed, one settlement iteration is exactly
the event/bankruptcy decision of `sim.rs` lines 282-300. -/
theorem settle_one_cases (snap : Snapshot) (prm : Params) (t : Nat) (p p' : Participant)
    (c : F) (hsc : settle_change snap prm p = some (p', c)) :
    settle_one snap prm t p =
      if F.ieeeEq c (F.num 0) then some (p', [], false)
      else if F.lt (F.num 0) c || (F.lt c (F.num 0) && F.lt (F.num 0) p'.num_tokens) then
        some (p', [⟨t, Info.stakeChange p'.id c⟩], false)
      else some (p', [⟨t, Info.participantBankrupt p'.id⟩], true) := by
  unfold settle_one
  rw [hsc]

/-- Claim C3 (amended): in every completed settlement pass, each participant
with a nonzero change whose outcome satisfies `change > 0`, or `change < 0`
with updated tokens still positive, gets a `StakeChange` event and survives
the pass; each participant with a nonzero change failing that test gets a
`ParticipantBankrupt` event instead and is removed, but only after the full
pass (every participant is settled against the same pre-pass snapshot); and a
participant whose change is exactly zero gets no event at all. -/
theorem c3_settlement_event_dichotomy (ps : List Participant) (params : Params)
    (time : Nat) (ps' : List Participant) (evs : List Event) (snap : Snapshot)
    (hnd : (ps.map Participant.id).Nodup)
    (hsnap : build_snapshot ps = some snap)
    (hrun : update_token_amounts ps params time = some (ps', evs)) :
    ∀ p ∈ ps, ∃ p' c, settle_change snap params p = some (p', c) ∧
      ((F.ieeeEq c (F.num 0) = false ∧
          (F.lt (F.num 0) c || (F.lt c (F.num 0) && F.lt (F.num 0) p'.num_tokens)) = true) →
        (⟨time, Info.stakeChange p.id c⟩ : Event) ∈ evs ∧ p' ∈ ps') ∧
      ((F.ieeeEq c (F.num 0) = false ∧
          (F.lt (F.num 0) c || (F.lt c (F.num 0) && F.lt (F.num 0) p'.num_tokens)) = false) →
        (⟨time, Info.participantBankrupt p.id⟩ : Event) ∈ evs ∧ ∀ q ∈ ps', q.id ≠ p.id) ∧
      (F.ieeeEq c (F.num 0) = true → ∀ e ∈ evs, event_pid e ≠ p.id) := by
  unfold update_token_amounts at hrun
  simp only [hsnap] at hrun
  cases houts : mapO (settle_one snap params time) ps with
  | none =>
    simp only [houts] at hrun
    exact Option.noConfusion hrun
  | some outs =>
    simp only [houts, Option.some.injEq, Prod.mk.injEq] at hrun
    obtain ⟨hps', hevs⟩ := hrun
    have hf2 := mapO_forall2 _ _ _ houts
    intro p hp
    obtain ⟨out, hout_mem, hout⟩ := forall2_mem_left hf2 hp
    cases hsc : settle_change snap params p with
    | none =>
      rw [settle_one_eq_none snap params time p hsc] at hout
      simp at hout
    | some pc =>
      obtain ⟨p', c⟩ := pc
      have hid := settle_change_id snap params p p' c hsc
      have hform := settle_one_cases snap params time p p' c hsc
      have hsame_of_id : ∀ out' ∈ outs, out'.1.id = p.id → out' = out := by
        intro out' hmem' hid'
        obtain ⟨q, hq_mem, hq⟩ := forall2_mem_right hf2 hmem'
        have hq_id : out'.1.id = q.id := (settle_one_spec _ _ _ _ _ hq).1
        have hqp : q = p :=
          List.inj_on_of_nodup_map hnd hq_mem hp (by rw [← hq_id, hid'])
        subst hqp
        rw [hout] at hq
        exact (Option.some.inj hq).symm
      refine ⟨p', c, rfl, ?_, ?_, ?_⟩
      · rintro ⟨h0, h1⟩
        rw [if_neg (by simp [h0]), if_pos h1] at hform
        have hout_eq : out = (p', [⟨time, Info.stakeChange p'.id c⟩], false) :=
          Option.some.inj (hout.symm.trans hform)
        constructor
        · rw [← hevs]
          apply List.mem_flatten.mpr
          refine ⟨[⟨time, Info.stakeChange p'.id c⟩], ?_, by simp [hid]⟩
          have : out.2.1 = [⟨time, Info.stakeChange p'.id c⟩] := by rw [hout_eq]
          exact this ▸ List.mem_map_of_mem (fun o => o.2.1) hout_mem
        · rw [← hps']
          apply List.mem_filter.mpr
          constructor
          · have : out.1 = p' := by rw [hout_eq]
            exact this ▸ List.mem_map_of_mem (fun o => o.1) hout_mem
          · have hnot : p'.id ∉ (outs.filter (fun o => o.2.2)).map (fun o => o.1.id) := by
              intro hmem
              obtain ⟨o, ho_f, ho_id⟩ := List.mem_map.mp hmem
              have ho := List.mem_filter.mp ho_f
              have : o = out := hsame_of_id o ho.1 (by rw [ho_id]; exact hid)
              rw [this, hout_eq] at ho
              simp at ho
            simpa using hnot
      · rintro ⟨h0, h1⟩
        rw [if_neg (by simp [h0]), if_neg (by simp [h1])] at hform
        have hout_eq : out = (p', [⟨time, Info.participantBankrupt p'.id⟩], true) :=
          Option.some.inj (hout.symm.trans hform)
        constructor
        · rw [← hevs]
          apply List.mem_flatten.mpr
          refine ⟨[⟨time, Info.participantBankrupt p'.id⟩], ?_, by simp [hid]⟩
          have : out.2.1 = [⟨time, Info.participantBankrupt p'.id⟩] := by rw [hout_eq]
          exact this ▸ List.mem_map_of_mem (fun o => o.2.1) hout_mem
        · intro q hq hqid
          rw [← hps'] at hq
          have hq' := List.mem_filter.mp hq
          have hpid_mem : p.id ∈ (outs.filter (fun o => o.2.2)).map (fun o => o.1.id) := by
            apply List.mem_map.mpr
            refine ⟨out, List.mem_filter.mpr ⟨hout_mem, by rw [hout_eq]⟩, ?_⟩
            rw [hout_eq]
            exact hid
          have hq2 := hq'.2
          simp only [Bool.not_eq_true', List.elem_eq_mem, decide_eq_false_iff_not] at hq2
          exact hq2 (hqid ▸ hpid_mem)
      · intro h0 e he hpe
        rw [if_pos (by simp [h0])] at hform
        have hout_eq : out = (p', [], false) := Option.some.inj (hout.symm.trans hform)
        rw [← hevs] at he
        obtain ⟨l, hl, hel⟩ := List.mem_flatten.mp he
        obtain ⟨o, ho_mem, ho_eq⟩ := List.mem_map.mp hl
        obtain ⟨q, hq_mem, hq⟩ := forall2_mem_right hf2 ho_mem
        have hspec := settle_one_spec _ _ _ _ _ hq
        have heq : event_pid e = q.id := hspec.2 e (ho_eq ▸ hel)
        have hqp : q = p := List.inj_on_of_nodup_map hnd hq_mem hp (by rw [← heq, hpe])
        subst hqp
        rw [hout] at hq
        have : o = out := Option.some.inj hq.symm
        rw [this, hout_eq] at ho_eq
        rw [← ho_eq] at hel
        simp at hel

theorem F.lt_trans' {a b c : F} (h1 : F.lt a b = true) (h2 : F.lt b c = true) :
    F.lt a c = true := by
  cases a <;> cases b <;> cases c <;> simp_all [F.lt]
  exact lt_trans h1 h2

theorem F.lt_asymm' {a b : F} (h : F.lt a b = true) : F.lt b a = false := by
  cases a <;> cases b <;> simp_all [F.lt]
  exact le_of_lt h

theorem F.ieeeEq_symm {a b : F} (h : F.ieeeEq a b = true) : F.ieeeEq b a = true := by
  cases a <;> cases b <;> simp_all [F.ieeeEq]

theorem F.ieeeEq_trans {a b c : F} (h1 : F.ieeeEq a b = true) (h2 : F.ieeeEq b c = true) :
    F.ieeeEq a c = true := by
  cases a <;> cases b <;> cases c <;> simp_all [F.ieeeEq]

theorem F.lt_of_eq_of_lt' {a b c : F} (h1 : F.ieeeEq a b = true) (h2 : F.lt b c = true) :
    F.lt a c = true := by
  cases a <;> cases b <;> cases c <;> simp_all [F.ieeeEq, F.lt]

theorem F.lt_of_lt_of_eq' {a b c : F} (h1 : F.lt a b = true) (h2 : F.ieeeEq b c = true) :
    F.lt a c = true := by
  cases a <;> cases b <;> cases c <;> simp_all [F.ieeeEq, F.lt]

theorem F.trichotomy' {a b : F} (ha : a.isNan = false) (hb : b.isNan = false) :
    F.lt a b = true ∨ F.ieeeEq a b = true ∨ F.lt b a = true := by
  cases a <;> cases b <;> simp_all [F.lt, F.ieeeEq, F.isNan]
  exact lt_trichotomy _ _

theorem F.fcmp_eq_gt_iff {a b : F} : F.fcmp a b = some Ordering.gt ↔ F.lt b a = true := by
  cases a <;> cases b <;> simp [F.fcmp, F.lt]
  exact compare_gt_iff_gt

theorem F.fcmp_eq_lt_iff {a b : F} : F.fcmp a b = some Ordering.lt ↔ F.lt a b = true := by
  cases a <;> cases b <;> simp [F.fcmp, F.lt]
  exact compare_lt_iff_lt

theorem F.fcmp_eq_eq_iff {a b : F} : F.fcmp a b = some Ordering.eq ↔ F.ieeeEq a b = true := by
  cases a <;> cases b <;> simp [F.fcmp, F.ieeeEq]
  exact compare_eq_iff_eq

theorem F.fcmp_eq_none_iff {a b : F} :
    F.fcmp a b = none ↔ (a.isNan = true ∨ b.isNan = true) := by
  cases a <;> cases b <;> simp [F.fcmp, F.isNan]

theorem prop_le_iff {a b : F × Id} (ha : a.1.isNan = false) (hb : b.1.isNan = false) :
    prop_le a b = true ↔ pool_ord a b := by
  unfold prop_le prop_cmp pool_ord
  cases hc : F.fcmp a.1 b.1 with
  | none =>
    rcases F.fcmp_eq_none_iff.mp hc with h | h
    · rw [ha] at h; cases h
    · rw [hb] at h; cases h
  | some o =>
    cases o with
    | lt =>
      have hlt : F.lt a.1 b.1 = true := F.fcmp_eq_lt_iff.mp hc
      simp only [Ordering.swap]
      constructor
      · intro h; cases h
      · rintro (h | ⟨h, _⟩)
        · rw [F.lt_asymm' hlt] at h; cases h
        · rw [F.fcmp_eq_eq_iff.mpr h] at hc; cases hc
    | eq =>
      have heq : F.ieeeEq a.1 b.1 = true := F.fcmp_eq_eq_iff.mp hc
      have hnl : F.lt b.1 a.1 = false := by
        cases hlt : F.lt b.1 a.1
        · rfl
        · have hself := F.lt_of_eq_of_lt' heq hlt
          rw [F.lt_asymm' hself] at hself
          cases hself
      rcases Nat.lt_trichotomy a.2 b.2 with hn | hn | hn
      · rw [compare_lt_iff_lt.mpr hn]
        simp [Ordering.swap, hnl, heq]
        exact hn
      · rw [compare_eq_iff_eq.mpr hn]
        simp [Ordering.swap, hnl, heq]
        exact le_of_eq hn.symm
      · rw [compare_gt_iff_gt.mpr hn]
        simp [Ordering.swap, hnl, heq]
        exact le_of_lt hn
    | gt =>
      have hlt : F.lt b.1 a.1 = true := F.fcmp_eq_gt_iff.mp hc
      simp [Ordering.swap, hlt]

theorem pool_ord_total {a b : F × Id} (ha : a.1.isNan = false) (hb : b.1.isNan = false) :
    pool_ord a b ∨ pool_ord b a := by
  rcases F.trichotomy' (a := a.1) (b := b.1) ha hb with h | h | h
  · exact Or.inr (Or.inl h)
  · rcases Nat.le_total a.2 b.2 with hn | hn
    · exact Or.inr (Or.inr ⟨F.ieeeEq_symm h, hn⟩)
    · exact Or.inl (Or.inr ⟨h, hn⟩)
  · exact Or.inl (Or.inl h)

theorem pool_ord_trans {a b c : F × Id} (hab : pool_ord a b) (hbc : pool_ord b c) :
    pool_ord a c := by
  rcases hab with h1 | ⟨h1, h1n⟩ <;> rcases hbc with h2 | ⟨h2, h2n⟩
  · exact Or.inl (F.lt_trans' h2 h1)
  · exact Or.inl (F.lt_of_eq_of_lt' (F.ieeeEq_symm h2) h1)
  · exact Or.inl (F.lt_of_lt_of_eq' h2 (F.ieeeEq_symm h1))
  · exact Or.inr ⟨F.ieeeEq_trans h1 h2, le_trans h2n h1n⟩

theorem prop_le_total' {a b : F × Id} (ha : a.1.isNan = false) (hb : b.1.isNan = false) :
    prop_le a b = true ∨ prop_le b a = true := by
  rcases pool_ord_total ha hb with h | h
  · exact Or.inl ((prop_le_iff ha hb).mpr h)
  · exact Or.inr ((prop_le_iff hb ha).mpr h)

theorem prop_le_trans' {a b c : F × Id} (ha : a.1.isNan = false) (hb : b.1.isNan = false)
    (hc : c.1.isNan = false) (h1 : prop_le a b = true) (h2 : prop_le b c = true) :
    prop_le a c = true :=
  (prop_le_iff ha hc).mpr
    (pool_ord_trans ((prop_le_iff ha hb).mp h1) ((prop_le_iff hb hc).mp h2))

theorem insert_sorted_perm {α : Type} (le : α → α → Bool) (a : α) (l : List α) :
    List.Perm (insert_sorted le a l) (a :: l) := by
  induction l with
  | nil => rfl
  | cons b bs ih =>
    rw [insert_sorted]
    by_cases h : le a b = true
    · rw [if_pos h]
    · rw [if_neg h]
      exact (ih.cons b).trans (List.Perm.swap a b bs)

theorem sortBy_perm {α : Type} (le : α → α → Bool) (l : List α) :
    List.Perm (sortBy le l) l := by
  induction l with
  | nil => rfl
  | cons a as ih => exact (insert_sorted_perm le a (sortBy le as)).trans (ih.cons a)

theorem insert_sorted_pairwise {α : Type} (le : α → α → Bool) (a : α) (l : List α)
    (htot : ∀ x ∈ l, le a x = true ∨ le x a = true)
    (htr : ∀ x ∈ l, ∀ y ∈ l, le a x = true → le x y = true → le a y = true)
    (hpair : l.Pairwise (fun x y => le x y = true)) :
    (insert_sorted le a l).Pairwise (fun x y => le x y = true) := by
  induction l with
  | nil => simp [insert_sorted]
  | cons b bs ih =>
    rw [List.pairwise_cons] at hpair
    rw [insert_sorted]
    by_cases hab : le a b = true
    · rw [if_pos hab]
      refine List.Pairwise.cons ?_ (List.Pairwise.cons hpair.1 hpair.2)
      intro x hx
      rcases List.mem_cons.mp hx with rfl | hx'
      · exact hab
      · exact htr b (List.mem_cons_self _ _) x (List.mem_cons_of_mem _ hx') hab
          (hpair.1 x hx')
    · rw [if_neg hab]
      have hba : le b a = true := by
        rcases htot b (List.mem_cons_self _ _) with h | h
        · exact absurd h hab
        · exact h
      refine List.Pairwise.cons ?_
        (ih (fun x hx => htot x (List.mem_cons_of_mem _ hx))
          (fun x hx y hy h1 h2 =>
            htr x (List.mem_cons_of_mem _ hx) y (List.mem_cons_of_mem _ hy) h1 h2)
          hpair.2)
      intro x hx
      rcases List.mem_cons.mp ((insert_sorted_perm le a bs).mem_iff.mp hx) with rfl | hx'
      · exact hba
      · exact hpair.1 x hx'

theorem sortBy_pairwise {α : Type} (le : α → α → Bool) (l : List α)
    (htot : ∀ x ∈ l, ∀ y ∈ l, le x y = true ∨ le y x = true)
    (htr : ∀ x ∈ l, ∀ y ∈ l, ∀ z ∈ l, le x y = true → le y z = true → le x z = true) :
    (sortBy le l).Pairwise (fun x y => le x y = true) := by
  induction l with
  | nil => simp [sortBy]
  | cons a as ih =>
    rw [sortBy]
    have hmem : ∀ x ∈ sortBy le as, x ∈ as := fun x hx => (sortBy_perm le as).mem_iff.mp hx
    refine insert_sorted_pairwise le a (sortBy le as) ?_ ?_ ?_
    · intro x hx
      exact htot a (List.mem_cons_self _ _) x (List.mem_cons_of_mem _ (hmem x hx))
    · intro x hx y hy h1 h2
      exact htr a (List.mem_cons_self _ _) x (List.mem_cons_of_mem _ (hmem x hx))
        y (List.mem_cons_of_mem _ (hmem y hy)) h1 h2
    · exact ih (fun x hx y hy => htot x (List.mem_cons_of_mem _ hx) y (List.mem_cons_of_mem _ hy))
        (fun x hx y hy z hz => htr x (List.mem_cons_of_mem _ hx) y (List.mem_cons_of_mem _ hy)
          z (List.mem_cons_of_mem _ hz))

/-- A successful pool sort returns a permutation of the pool that is ordered
by stake descending with exact ties ordered by id descending. -/
theorem sort_proposals_some (l l' : List (F × Id)) (h : sort_proposals l = some l') :
    List.Perm l' l ∧ l'.Pairwise pool_ord := by
  unfold sort_proposals at h
  by_cases hg : 2 ≤ l.length ∧ l.any (fun pr => pr.1.isNan) = true
  · rw [if_pos hg] at h; cases h
  · rw [if_neg hg] at h
    have hl' : l' = sortBy prop_le l := (Option.some.inj h).symm
    subst hl'
    refine ⟨sortBy_perm prop_le l, ?_⟩
    by_cases hlen : 2 ≤ l.length
    · have hnn : ∀ pr ∈ l, pr.1.isNan = false := by
        intro pr hpr
        by_contra hna
        have : pr.1.isNan = true := by
          cases hh : pr.1.isNan
          · exact absurd hh hna
          · rfl
        exact hg ⟨hlen, List.any_eq_true.mpr ⟨pr, hpr, this⟩⟩
      have hp := sortBy_pairwise prop_le l
        (fun x hx y hy => prop_le_total' (hnn x hx) (hnn y hy))
        (fun x hx y hy z hz => prop_le_trans' (hnn x hx) (hnn y hy) (hnn z hz))
      refine hp.imp_of_mem ?_
      intro x y hx hy hxy
      have hx' := (sortBy_perm prop_le l).mem_iff.mp hx
      have hy' := (sortBy_perm prop_le l).mem_iff.mp hy
      exact (prop_le_iff (hnn x hx') (hnn y hy')).mp hxy
    · cases l with
      | nil => simp [sortBy]
      | cons x xs =>
        cases xs with
        | nil => simp [sortBy, insert_sorted]
        | cons y ys =>
          exact absurd (by simp only [List.length_cons]; omega) hlen

set_option maxRecDepth 4000 in
/-- Claim C3 witness: one block producer with a positive settlement delta of
1765 under `params_a` gets its `StakeChange` event and survives the pass. -/
theorem c3_settlement_event_dichotomy_witness :
    ∃ p' c,
      settle_change ⟨[(0, F.num 10)], [], F.num 10, F.num 0⟩ params_a bp_break_even =
        some (p', c) ∧
      ((F.ieeeEq c (F.num 0) = false ∧
          (F.lt (F.num 0) c || (F.lt c (F.num 0) && F.lt (F.num 0) p'.num_tokens)) = true) →
        (⟨1, Info.stakeChange bp_break_even.id c⟩ : Event) ∈
            [(⟨1, Info.stakeChange 0 (F.num 1765)⟩ : Event)] ∧ p' ∈ [settled_bp]) ∧
      ((F.ieeeEq c (F.num 0) = false ∧
          (F.lt (F.num 0) c || (F.lt c (F.num 0) && F.lt (F.num 0) p'.num_tokens)) = false) →
        (⟨1, Info.participantBankrupt bp_break_even.id⟩ : Event) ∈
            [(⟨1, Info.stakeChange 0 (F.num 1765)⟩ : Event)] ∧
          ∀ q ∈ [settled_bp], q.id ≠ bp_break_even.id) ∧
      (F.ieeeEq c (F.num 0) = true →
        ∀ e ∈ [(⟨1, Info.stakeChange 0 (F.num 1765)⟩ : Event)],
          event_pid e ≠ bp_break_even.id) :=
  c3_settlement_event_dichotomy [bp_break_even] params_a 1 [settled_bp]
    [⟨1, Info.stakeChange 0 (F.num 1765)⟩] ⟨[(0, F.num 10)], [], F.num 10, F.num 0⟩
    (by decide) (by with_unfolding_all decide) (by with_unfolding_all decide)
    bp_break_even (by decide)

/-- Claim C4 (counterexample): on an exact stake tie the sorted pool puts the
LARGER id first — the output `[(5, 1), (5, 0)]` violates the id-ascending
tie-break the claim states — and in the auction itself the tied participant
with the larger id (1) keeps the single block-producer slot while id 0 is
demoted to its delegator. -/
theorem c4_tie_break_ascending_counterexample :
    sort_proposals [(F.num 5, 0), (F.num 5, 1)] = some [(F.num 5, 1), (F.num 5, 0)]
    ∧ ¬ (List.Pairwise
          (fun a b => F.lt b.1 a.1 = true ∨ (F.ieeeEq a.1 b.1 = true ∧ a.2 ≤ b.2))
          [((F.num 5 : F), (1 : Id)), ((F.num 5 : F), (0 : Id))])
    ∧ update_roles [tie_a, tie_b] params_one_slot 1 coin_ent =
        some ([{ tie_a with role := some (Role.delegator 1) }, tie_b],
          [⟨1, Info.roleChange 0 (some (Role.delegator 1))⟩]) := by
  refine ⟨by with_unfolding_all decide, ?_, by with_unfolding_all decide⟩
  intro hpair
  rw [List.pairwise_cons] at hpair
  have h := hpair.1 _ (List.mem_cons_self _ _)
  revert h
  with_unfolding_all decide

/-- Claim C4 (amended): in every completed role auction, each candidate pool
is sorted by stake descending, and every exact stake tie is broken
deterministically by identifier DESCENDING — the comparator reverses the
whole `(stake, id)` pair ordering — not ascending as claimed. -/
theorem c4_pools_sorted_desc (ps : List Participant) (params : Params) (time : Nat)
    (ent : Nat → ℚ × Bool) (ps' : List Participant) (evs : List Event)
    (h : update_roles ps params time ent = some (ps', evs)) :
    ∃ bp' cop',
      sort_proposals (build_proposals ps ent).1 = some bp' ∧
      sort_proposals (build_proposals ps ent).2 = some cop' ∧
      List.Perm bp' (build_proposals ps ent).1 ∧
      List.Perm cop' (build_proposals ps ent).2 ∧
      bp'.Pairwise pool_ord ∧ cop'.Pairwise pool_ord := by
  unfold update_roles at h
  cases hbp : sort_proposals (build_proposals ps ent).1 with
  | none =>
    simp only [hbp] at h
    exact Option.noConfusion h
  | some bp' =>
    cases hcop : sort_proposals (build_proposals ps ent).2 with
    | none =>
      simp only [hbp, hcop] at h
      exact Option.noConfusion h
    | some cop' =>
      have h1 := sort_proposals_some _ _ hbp
      have h2 := sort_proposals_some _ _ hcop
      exact ⟨bp', cop', rfl, rfl, h1.1, h2.1, h1.2, h2.2⟩

/-- Claim C4 witness: the auction on the tied registry completes, so its pools
are sorted stake-descending with the descending id tie-break. -/
theorem c4_pools_sorted_desc_witness :
    ∃ bp' cop',
      sort_proposals (build_proposals [tie_a, tie_b] coin_ent).1 = some bp' ∧
      sort_proposals (build_proposals [tie_a, tie_b] coin_ent).2 = some cop' ∧
      List.Perm bp' (build_proposals [tie_a, tie_b] coin_ent).1 ∧
      List.Perm cop' (build_proposals [tie_a, tie_b] coin_ent).2 ∧
      bp'.Pairwise pool_ord ∧ cop'.Pairwise pool_ord :=
  c4_pools_sorted_desc [tie_a, tie_b] params_one_slot 1 coin_ent
    [{ tie_a with role := some (Role.delegator 1) }, tie_b]
    [⟨1, Info.roleChange 0 (some (Role.delegator 1))⟩]
    (by with_unfolding_all decide)

/-- The round-robin delegation loop hits `(i + 1) % 0` on its first iteration
whenever the slot count is zero and there is at least one overflow entry. -/
theorem round_robin_zero_slots (pool : List (F × Id)) (over : List (F × Id)) (i : Nat)
    (hov : over ≠ []) : round_robin pool 0 over i = none := by
  cases over with
  | nil => exact absurd rfl hov
  | cons x rest =>
    cases hp : pool[i]? <;> simp [round_robin, hp]

/-- Claim C10: with zero block-producer slots and a non-empty block-producer
pool the auction aborts on the `% 0` of the round-robin loop instead of
assigning roles, and likewise on the chunk-only side. -/
theorem c10_zero_slots_abort (ps : List Participant) (params : Params) (time : Nat)
    (ent : Nat → ℚ × Bool) :
    (params.num_block_producers = 0 → (build_proposals ps ent).1 ≠ [] →
      update_roles ps params time ent = none)
    ∧ (params.num_chunk_only_producers = 0 → (build_proposals ps ent).2 ≠ [] →
      update_roles ps params time ent = none) := by
  constructor
  · intro h0 hne
    unfold update_roles
    cases hbp : sort_proposals (build_proposals ps ent).1 with
    | none => simp [hbp]
    | some bp' =>
      have hperm := (sort_proposals_some _ _ hbp).1
      have hbp_ne : bp' ≠ [] := by
        intro hnil
        rw [hnil] at hperm
        exact hne hperm.symm.eq_nil
      have hrr := round_robin_zero_slots bp' bp' 0 hbp_ne
      cases hcop : sort_proposals (build_proposals ps ent).2 with
      | none => simp [hbp, hcop]
      | some cop' => simp [hbp, hcop, h0, hrr]
  · intro h0 hne
    unfold update_roles
    cases hbp : sort_proposals (build_proposals ps ent).1 with
    | none => simp [hbp]
    | some bp' =>
      cases hcop : sort_proposals (build_proposals ps ent).2 with
      | none => simp [hbp, hcop]
      | some cop' =>
        have hperm := (sort_proposals_some _ _ hcop).1
        have hcop_ne : cop' ≠ [] := by
          intro hnil
          rw [hnil] at hperm
          exact hne hperm.symm.eq_nil
        have hrr := round_robin_zero_slots cop' cop' 0 hcop_ne
        cases hbo : round_robin bp' params.num_block_producers
            (bp'.drop params.num_block_producers) 0 with
        | none => simp [hbp, hcop, hbo]
        | some bp_over => simp [hbp, hcop, hbo, h0, hrr]

/-- Claim C10 witness: two block producers with zero block-producer slots make
the auction abort. -/
theorem c10_zero_slots_abort_witness :
    update_roles [tie_a, tie_b] params_zero_bp_slots 1 coin_ent = none :=
  (c10_zero_slots_abort [tie_a, tie_b] params_zero_bp_slots 1 coin_ent).1 rfl
    (by with_unfolding_all decide)

/-- Every participant's id lands in exactly one of the two candidate pools:
the concatenated pool ids are a permutation of the registry ids. -/
theorem build_proposals_aux_ids (all : List Participant) (ent : Nat → ℚ × Bool) :
    ∀ (l : List Participant) (k : Nat),
      List.Perm ((build_proposals_aux all ent l k).1.map Prod.snd ++
        (build_proposals_aux all ent l k).2.map Prod.snd) (l.map Participant.id) := by
  intro l
  induction l with
  | nil => intro k; simp [build_proposals_aux]
  | cons p rest ih =>
    intro k
    by_cases hj : joins_bp_pool all p (ent k).1 (ent k).2 = true
    · simp only [build_proposals_aux, hj, if_true, List.map_cons, List.cons_append]
      exact (ih (k + 1)).cons p.id
    · simp only [build_proposals_aux, hj, if_false, List.map_cons]
      exact List.Perm.trans List.perm_middle ((ih (k + 1)).cons p.id)

/-- The round-robin loop assigns exactly the overflow entries, in order, and
every role it assigns is a `Delegator`. -/
theorem round_robin_ids (pool : List (F × Id)) (slots : Nat) :
    ∀ (over : List (F × Id)) (i : Nat) (out : List (Id × Option Role)),
      round_robin pool slots over i = some out →
      out.map Prod.fst = over.map Prod.snd ∧
        ∀ a ∈ out, ∃ d, a.2 = some (Role.delegator d) := by
  intro over
  induction over with
  | nil =>
    intro i out h
    simp only [round_robin, Option.some.injEq] at h
    subst h
    simp
  | cons pr rest ih =>
    intro i out h
    simp only [round_robin] at h
    cases hp : pool[i]? with
    | none =>
      simp only [hp] at h
      exact Option.noConfusion h
    | some dp =>
      simp only [hp] at h
      by_cases hs : slots = 0
      · rw [if_pos hs] at h
        exact Option.noConfusion h
      · rw [if_neg hs] at h
        cases hr : round_robin pool slots rest ((i + 1) % slots) with
        | none =>
          simp only [hr] at h
          exact Option.noConfusion h
        | some tl =>
          simp only [hr, Option.some.injEq] at h
          subst h
          obtain ⟨ih1, ih2⟩ := ih _ _ hr
          refine ⟨by simp [ih1], ?_⟩
          intro a ha
          rcases List.mem_cons.mp ha with rfl | ha'
          · exact ⟨dp.2, rfl⟩
          · exact ih2 a ha'

/-- Role assignment never changes the list of ids. -/
theorem set_role_ids (i : Id) (r : Option Role) :
    ∀ (ps ps1 : List Participant) (ch : Bool),
      set_role ps i r = some (ps1, ch) →
      ps1.map Participant.id = ps.map Participant.id := by
  intro ps
  induction ps with
  | nil =>
    intro ps1 ch h
    simp [set_role] at h
  | cons p rest ih =>
    intro ps1 ch h
    simp only [set_role] at h
    by_cases hpi : p.id = i
    · rw [if_pos hpi] at h
      by_cases hrole : p.role ≠ r
      · rw [if_pos hrole] at h
        simp only [Option.some.injEq, Prod.mk.injEq] at h
        rw [← h.1]
        simp
      · rw [if_neg hrole] at h
        simp only [Option.some.injEq, Prod.mk.injEq] at h
        rw [← h.1]
    · rw [if_neg hpi] at h
      cases hsr : set_role rest i r with
      | none =>
        simp only [hsr] at h
        exact Option.noConfusion h
      | some pr =>
        obtain ⟨rest', ch'⟩ := pr
        simp only [hsr, Option.some.injEq, Prod.mk.injEq] at h
        rw [← h.1]
        simp only [List.map_cons]
        rw [ih rest' ch' hsr]

/-- With distinct ids, a successful role assignment is the pointwise update of
the first (unique) participant carrying that id. -/
theorem set_role_some (i : Id) (r : Option Role) :
    ∀ (ps ps1 : List Participant) (ch : Bool),
      (ps.map Participant.id).Nodup →
      set_role ps i r = some (ps1, ch) →
      ps1 = ps.map (fun q => if q.id = i then { q with role := r } else q) := by
  intro ps
  induction ps with
  | nil =>
    intro ps1 ch _ h
    simp [set_role] at h
  | cons p rest ih =>
    intro ps1 ch hnd h
    simp only [List.map_cons, List.nodup_cons] at hnd
    simp only [set_role] at h
    by_cases hpi : p.id = i
    · have htail : ∀ q ∈ rest, (if q.id = i then { q with role := r } else q) = q := by
        intro q hq
        rw [if_neg]
        intro hqi
        exact hnd.1 ((hqi.trans hpi.symm) ▸ List.mem_map_of_mem Participant.id hq)
      rw [if_pos hpi] at h
      by_cases hrole : p.role ≠ r
      · rw [if_pos hrole] at h
        simp only [Option.some.injEq, Prod.mk.injEq] at h
        rw [← h.1]
        simp only [List.map_cons, if_pos hpi]
        congr 1
        rw [List.map_congr_left htail, List.map_id']
      · rw [if_neg hrole] at h
        simp only [Option.some.injEq, Prod.mk.injEq] at h
        rw [← h.1]
        push_neg at hrole
        simp only [List.map_cons, if_pos hpi]
        congr 1
        · rw [← hrole]
        · rw [List.map_congr_left htail, List.map_id']
    · rw [if_neg hpi] at h
      cases hsr : set_role rest i r with
      | none =>
        simp only [hsr] at h
        exact Option.noConfusion h
      | some pr =>
        obtain ⟨rest', ch'⟩ := pr
        simp only [hsr, Option.some.injEq, Prod.mk.injEq] at h
        rw [← h.1]
        simp only [List.map_cons, if_neg hpi]
        congr 1
        exact ih rest' ch' hnd.2 hsr

theorem roles_after_cons (a : Id × Option Role) (rest : List (Id × Option Role))
    (q : Participant) :
    roles_after (a :: rest) q =
      roles_after rest (if q.id = a.1 then { q with role := a.2 } else q) := rfl

theorem roles_after_id (asgn : List (Id × Option Role)) :
    ∀ q : Participant, (roles_after asgn q).id = q.id := by
  induction asgn with
  | nil => intro q; rfl
  | cons a rest ih =>
    intro q
    rw [roles_after_cons]
    by_cases h : q.id = a.1
    · rw [if_pos h, ih]
    · rw [if_neg h, ih]

theorem roles_after_no_match (asgn : List (Id × Option Role)) :
    ∀ q : Participant, (∀ a ∈ asgn, a.1 ≠ q.id) → roles_after asgn q = q := by
  induction asgn with
  | nil => intro q _; rfl
  | cons a rest ih =>
    intro q hna
    rw [roles_after_cons, if_neg (fun he => hna a (List.mem_cons_self _ _) he.symm)]
    exact ih q (fun b hb => hna b (List.mem_cons_of_mem _ hb))

/-- When the assignment targets are distinct, a participant whose id is
targeted by an assignment ends up with exactly that assignment's role. -/
theorem roles_after_unique :
    ∀ (asgn : List (Id × Option Role)) (q : Participant) (a : Id × Option Role),
      (asgn.map Prod.fst).Nodup → a ∈ asgn → a.1 = q.id →
      (roles_after asgn q).role = a.2 := by
  intro asgn
  induction asgn with
  | nil =>
    intro q a _ ha _
    simp at ha
  | cons b rest ih =>
    intro q a hnd ha haq
    simp only [List.map_cons, List.nodup_cons] at hnd
    rw [roles_after_cons]
    rcases List.mem_cons.mp ha with rfl | ha'
    · rw [if_pos haq.symm]
      rw [roles_after_no_match rest _ ?_]
      · intro b' hb' he
        exact hnd.1 ((he.trans haq.symm) ▸ List.mem_map_of_mem Prod.fst hb')
    · have hb : b.1 ≠ q.id := by
        intro he
        exact hnd.1 ((he.trans haq.symm).symm ▸ List.mem_map_of_mem Prod.fst ha')
      rw [if_neg (fun he => hb he.symm)]
      exact ih q a hnd.2 ha' haq

/-- A completed assignment pass computes the pointwise role updates. -/
theorem apply_assignments_some (time : Nat) :
    ∀ (asgn : List (Id × Option Role)) (ps ps1 : List Participant) (evs : List Event),
      (ps.map Participant.id).Nodup →
      apply_assignments time ps asgn = some (ps1, evs) →
      ps1 = ps.map (roles_after asgn) := by
  intro asgn
  induction asgn with
  | nil =>
    intro ps ps1 evs _ h
    simp only [apply_assignments, Option.some.injEq, Prod.mk.injEq] at h
    rw [← h.1]
    have : ∀ q ∈ ps, q = roles_after [] q := by
      intro q _
      rfl
    rw [List.map_congr_left (fun q hq => (this q hq).symm), List.map_id']
  | cons a rest ih =>
    intro ps ps1 evs hnd h
    simp only [apply_assignments] at h
    cases hsr : set_role ps a.1 a.2 with
    | none =>
      simp only [hsr] at h
      exact Option.noConfusion h
    | some pr =>
      obtain ⟨psa, ch⟩ := pr
      simp only [hsr] at h
      cases har : apply_assignments time psa rest with
      | none =>
        simp only [har] at h
        exact Option.noConfusion h
      | some pr2 =>
        obtain ⟨ps2, evs2⟩ := pr2
        simp only [har, Option.some.injEq, Prod.mk.injEq] at h
        have hids : psa.map Participant.id = ps.map Participant.id :=
          set_role_ids a.1 a.2 ps psa ch hsr
        have hnd2 : (psa.map Participant.id).Nodup := by rw [hids]; exact hnd
        have h2 := ih psa ps2 evs2 hnd2 har
        rw [← h.1, h2, set_role_some a.1 a.2 ps psa ch hnd hsr, List.map_map]
        apply List.map_congr_left
        intro q _
        rfl

/-- Counting step: if every assignment carrying the target role lies in the
winner segment `W`, the number of participants ending with that role is at
most `W.length`. -/
theorem count_role_le (ps ps' : List Participant) (asgn W : List (Id × Option Role))
    (tr : Role)
    (hnd : (ps.map Participant.id).Nodup)
    (hndf : (asgn.map Prod.fst).Nodup)
    (hasgn : ps' = ps.map (roles_after asgn))
    (hmemf : ∀ q ∈ ps, q.id ∈ asgn.map Prod.fst)
    (hW : ∀ a ∈ asgn, a.2 = some tr → a ∈ W) :
    (ps'.filter (fun p => p.role == some tr)).length ≤ W.length := by
  have hsub : ∀ x ∈ (ps'.filter (fun p => p.role == some tr)).map Participant.id,
      x ∈ W.map Prod.fst := by
    intro x hx
    obtain ⟨p'', hp''_f, rfl⟩ := List.mem_map.mp hx
    obtain ⟨hp''_mem, hp''_tr⟩ := List.mem_filter.mp hp''_f
    rw [hasgn] at hp''_mem
    obtain ⟨q, hq_mem, rfl⟩ := List.mem_map.mp hp''_mem
    obtain ⟨a, ha_mem, ha_fst⟩ := List.mem_map.mp (hmemf q hq_mem)
    have hrole := roles_after_unique asgn q a hndf ha_mem ha_fst
    have hval : a.2 = some tr := by
      rw [← hrole]
      exact beq_iff_eq.mp hp''_tr
    have haW := hW a ha_mem hval
    rw [roles_after_id asgn q, ← ha_fst]
    exact List.mem_map_of_mem Prod.fst haW
  have hps'_ids : ps'.map Participant.id = ps.map Participant.id := by
    rw [hasgn, List.map_map]
    apply List.map_congr_left
    intro q _
    exact roles_after_id asgn q
  have hnodup_l : ((ps'.filter (fun p => p.role == some tr)).map Participant.id).Nodup := by
    have hsl : List.Sublist ((ps'.filter (fun p => p.role == some tr)).map Participant.id)
        (ps'.map Participant.id) := (List.filter_sublist _).map _
    exact hsl.nodup (by rw [hps'_ids]; exact hnd)
  have hlen := (List.subperm_of_subset hnodup_l hsub).length_le
  rw [List.length_map, List.length_map] at hlen
  exact hlen

/-- Claim C6: after every completed role auction, at most
`num_block_producers` participants hold the block-producer role and at most
`num_chunk_only_producers` hold the chunk-only-producer role. -/
theorem c6_slot_bound (ps : List Participant) (params : Params) (time : Nat)
    (ent : Nat → ℚ × Bool) (ps' : List Participant) (evs : List Event)
    (hnd : (ps.map Participant.id).Nodup)
    (h : update_roles ps params time ent = some (ps', evs)) :
    (ps'.filter (fun p => p.role == some Role.blockProducer)).length ≤
      params.num_block_producers
    ∧ (ps'.filter (fun p => p.role == some Role.chunkOnlyProducer)).length ≤
      params.num_chunk_only_producers := by
  unfold update_roles at h
  cases hbp : sort_proposals (build_proposals ps ent).1 with
  | none =>
    simp only [hbp] at h
    exact Option.noConfusion h
  | some bp' =>
  cases hcop : sort_proposals (build_proposals ps ent).2 with
  | none =>
    simp only [hbp, hcop] at h
    exact Option.noConfusion h
  | some cop' =>
  simp only [hbp, hcop] at h
  cases hbo : round_robin bp' params.num_block_producers
      (bp'.drop params.num_block_producers) 0 with
  | none =>
    simp only [hbo] at h
    exact Option.noConfusion h
  | some bp_over =>
  cases hco : round_robin cop' params.num_chunk_only_producers
      (cop'.drop params.num_chunk_only_producers) 0 with
  | none =>
    simp only [hbo, hco] at h
    exact Option.noConfusion h
  | some cop_over =>
  simp only [hbo, hco] at h
  have hasgn := apply_assignments_some time _ ps ps' evs hnd h
  have hbov := round_robin_ids bp' params.num_block_producers _ _ _ hbo
  have hcov := round_robin_ids cop' params.num_chunk_only_producers _ _ _ hco
  have hcomp : ∀ (l : List (F × Id)) (r : Option Role),
      (l.map (fun pr => (pr.2, r))).map Prod.fst = l.map Prod.snd := by
    intro l r
    rw [List.map_map]
    rfl
  have hfst : (((bp'.take params.num_block_producers).map
        (fun pr => (pr.2, some Role.blockProducer)) ++
      (cop'.take params.num_chunk_only_producers).map
        (fun pr => (pr.2, some Role.chunkOnlyProducer)) ++ bp_over ++ cop_over).map Prod.fst)
      = (bp'.take params.num_block_producers).map Prod.snd ++
        (cop'.take params.num_chunk_only_producers).map Prod.snd ++
        (bp'.drop params.num_block_producers).map Prod.snd ++
        (cop'.drop params.num_chunk_only_producers).map Prod.snd := by
    simp only [List.map_append, hcomp, hbov.1, hcov.1]
  have e1 : (bp'.take params.num_block_producers).map Prod.snd ++
      (bp'.drop params.num_block_producers).map Prod.snd = bp'.map Prod.snd := by
    rw [← List.map_append, List.take_append_drop]
  have e2 : (cop'.take params.num_chunk_only_producers).map Prod.snd ++
      (cop'.drop params.num_chunk_only_producers).map Prod.snd = cop'.map Prod.snd := by
    rw [← List.map_append, List.take_append_drop]
  have hfperm : List.Perm ((((bp'.take params.num_block_producers).map
        (fun pr => (pr.2, some Role.blockProducer)) ++
      (cop'.take params.num_chunk_only_producers).map
        (fun pr => (pr.2, some Role.chunkOnlyProducer)) ++ bp_over ++ cop_over).map Prod.fst))
      (ps.map Participant.id) := by
    rw [hfst]
    have hswap : List.Perm
        ((bp'.take params.num_block_producers).map Prod.snd ++
          (cop'.take params.num_chunk_only_producers).map Prod.snd ++
          (bp'.drop params.num_block_producers).map Prod.snd ++
          (cop'.drop params.num_chunk_only_producers).map Prod.snd)
        (((bp'.take params.num_block_producers).map Prod.snd ++
          (bp'.drop params.num_block_producers).map Prod.snd) ++
         ((cop'.take params.num_chunk_only_producers).map Prod.snd ++
          (cop'.drop params.num_chunk_only_producers).map Prod.snd)) := by
      have h1 : List.Perm
          ((cop'.take params.num_chunk_only_producers).map Prod.snd ++
            (bp'.drop params.num_block_producers).map Prod.snd)
          ((bp'.drop params.num_block_producers).map Prod.snd ++
            (cop'.take params.num_chunk_only_producers).map Prod.snd) :=
        List.perm_append_comm
      have h2 := (h1.append_left ((bp'.take params.num_block_producers).map Prod.snd)).append_right
        ((cop'.drop params.num_chunk_only_producers).map Prod.snd)
      have e3 : (bp'.take params.num_block_producers).map Prod.snd ++
          (cop'.take params.num_chunk_only_producers).map Prod.snd ++
          (bp'.drop params.num_block_producers).map Prod.snd ++
          (cop'.drop params.num_chunk_only_producers).map Prod.snd =
          ((bp'.take params.num_block_producers).map Prod.snd ++
            ((cop'.take params.num_chunk_only_producers).map Prod.snd ++
              (bp'.drop params.num_block_producers).map Prod.snd)) ++
            (cop'.drop params.num_chunk_only_producers).map Prod.snd := by
        simp only [List.append_assoc]
      have e4 : ((bp'.take params.num_block_producers).map Prod.snd ++
            ((bp'.drop params.num_block_producers).map Prod.snd ++
              (cop'.take params.num_chunk_only_producers).map Prod.snd)) ++
            (cop'.drop params.num_chunk_only_producers).map Prod.snd =
          ((bp'.take params.num_block_producers).map Prod.snd ++
            (bp'.drop params.num_block_producers).map Prod.snd) ++
          ((cop'.take params.num_chunk_only_producers).map Prod.snd ++
            (cop'.drop params.num_chunk_only_producers).map Prod.snd) := by
        simp only [List.append_assoc]
      rw [e3, ← e4]
      exact h2
    refine hswap.trans ?_
    rw [e1, e2]
    have hperm1 := ((sort_proposals_some _ _ hbp).1).map Prod.snd
    have hperm2 := ((sort_proposals_some _ _ hcop).1).map Prod.snd
    exact (hperm1.append hperm2).trans (build_proposals_aux_ids ps ent ps 0)
  have hndf := (hfperm.nodup_iff).mpr hnd
  have hmemf : ∀ q ∈ ps, ∀ {asgnl : List (Id × Option Role)}, asgnl =
      ((bp'.take params.num_block_producers).map (fun pr => (pr.2, some Role.blockProducer)) ++
        (cop'.take params.num_chunk_only_producers).map
          (fun pr => (pr.2, some Role.chunkOnlyProducer)) ++ bp_over ++ cop_over) →
      q.id ∈ asgnl.map Prod.fst := by
    intro q hq asgnl hasgnl
    rw [hasgnl]
    exact hfperm.mem_iff.mpr (List.mem_map_of_mem _ hq)
  constructor
  · refine count_role_le ps ps' _
      ((bp'.take params.num_block_producers).map (fun pr => (pr.2, some Role.blockProducer)))
      Role.blockProducer hnd hndf hasgn (fun q hq => hmemf q hq rfl) ?_ |>.trans ?_
    · intro a ha hval
      rcases List.mem_append.mp ha with h1 | hD
      · rcases List.mem_append.mp h1 with h2 | hB
        · rcases List.mem_append.mp h2 with hA | hC
          · exact hA
          · obtain ⟨pr, _, rfl⟩ := List.mem_map.mp hC
            simp at hval
        · obtain ⟨d, hd⟩ := hbov.2 a hB
          rw [hd] at hval
          simp at hval
      · obtain ⟨d, hd⟩ := hcov.2 a hD
        rw [hd] at hval
        simp at hval
    · rw [List.length_map]
      rw [List.length_take]
      exact min_le_left _ _
  · refine count_role_le ps ps' _
      ((cop'.take params.num_chunk_only_producers).map
        (fun pr => (pr.2, some Role.chunkOnlyProducer)))
      Role.chunkOnlyProducer hnd hndf hasgn (fun q hq => hmemf q hq rfl) ?_ |>.trans ?_
    · intro a ha hval
      rcases List.mem_append.mp ha with h1 | hD
      · rcases List.mem_append.mp h1 with h2 | hB
        · rcases List.mem_append.mp h2 with hA | hC
          · obtain ⟨pr, _, rfl⟩ := List.mem_map.mp hA
            simp at hval
          · exact hC
        · obtain ⟨d, hd⟩ := hbov.2 a hB
          rw [hd] at hval
          simp at hval
      · obtain ⟨d, hd⟩ := hcov.2 a hD
        rw [hd] at hval
        simp at hval
    · rw [List.length_map]
      rw [List.length_take]
      exact min_le_left _ _

/-- Claim C6 witness: the tied two-producer auction with one slot of each kind
ends with one block producer and no chunk-only producer. -/
theorem c6_slot_bound_witness :
    (([{ tie_a with role := some (Role.delegator 1) }, tie_b] : List Participant).filter
        (fun p => p.role == some Role.blockProducer)).length ≤
      params_one_slot.num_block_producers
    ∧ (([{ tie_a with role := some (Role.delegator 1) }, tie_b] : List Participant).filter
        (fun p => p.role == some Role.chunkOnlyProducer)).length ≤
      params_one_slot.num_chunk_only_producers :=
  c6_slot_bound [tie_a, tie_b] params_one_slot 1 coin_ent
    [{ tie_a with role := some (Role.delegator 1) }, tie_b]
    [⟨1, Info.roleChange 0 (some (Role.delegator 1))⟩]
    (by decide) (by with_unfolding_all decide)

end BpSim
